import Mathlib

/-!
Verification development for the `censor-board-cuts` repository
(CBFC certificate scraper / parser / resumable crawl loop).

The Python sources under `scripts/certificates/` (`scraper.py`, `parse.py`,
`main.py`) are shallowly embedded below.  String-valued Python operations
(`str.replace`, `in`, `endswith`, `split`, `strip`, `lower`, `isupper`) are
modelled as executable functions on `List Char` / `String`.  Filesystem and
network effects are modelled by explicit state passing (`FS` maps filenames to
optional file contents, a network oracle maps a certificate id to a response
or a request exception).  Python's `eval` of the payload segment cannot be
embedded; it is abstracted as an oracle parameter that either returns a parsed
value or raises (returns an `Except.error`).
-/

namespace CBC

/-! ### Python string primitives on `List Char` -/

/-- Fuel-driven core of Python `str.replace`: scan left to right, replace each
non-overlapping occurrence of `pat` by `rep`.  `fuel ≥ s.length` makes the
fuel irrelevant (see `pyReplaceAux_fuel`); the wrapper `pyReplace` supplies
`s.length`.  (Python's `replace` with an empty pattern inserts `rep` between
all characters; the sources only ever call it with non-empty patterns, and an
empty pattern here is a no-op.) -/
def pyReplaceAux (pat rep : List Char) : Nat → List Char → List Char
  | 0, s => s
  | _ + 1, [] => []
  | fuel + 1, c :: rest =>
    if pat ≠ [] ∧ pat.isPrefixOf (c :: rest) then
      rep ++ pyReplaceAux pat rep fuel ((c :: rest).drop pat.length)
    else
      c :: pyReplaceAux pat rep fuel rest

/-- Python `s.replace(pat, rep)` on character lists. -/
def pyReplace (pat rep s : List Char) : List Char :=
  pyReplaceAux pat rep s.length s

/-- Python `s.replace(pat, rep)` on strings. -/
def pyStrReplace (s pat rep : String) : String :=
  ⟨pyReplace pat.data rep.data s.data⟩

/-- Python `needle in hay` (substring containment) on character lists. -/
def listContains (hay needle : List Char) : Bool :=
  match hay with
  | [] => needle.isEmpty
  | _ :: rest => needle.isPrefixOf hay || listContains rest needle

/-- Python `needle in hay` on strings. -/
def strContains (hay needle : String) : Bool :=
  listContains hay.data needle.data

/-- Python `s.endswith(t)`. -/
def strEndsWith (s t : String) : Bool :=
  t.data.isSuffixOf s.data

/-- Python `s.lower()` (ASCII range, which covers all characters the
heuristics compare against). -/
def strLower (s : String) : String :=
  ⟨s.data.map Char.toLower⟩

/-- Python `s.isupper()`: at least one cased character and no lowercase cased
character (ASCII approximation of the cased-character classes). -/
def pyIsUpper (s : String) : Bool :=
  s.data.any Char.isAlpha && s.data.all (fun c => !(c.isLower))

/-- Python whitespace test used by `str.strip()` / `str.split()`. -/
def pySpace (c : Char) : Bool :=
  c = ' ' || c = '\t' || c = '\n' || c = '\r' || c = '\x0c' || c = '\x0b'

/-- Python `s.strip()` on character lists. -/
def pyStripList (s : List Char) : List Char :=
  (s.dropWhile pySpace).reverse.dropWhile pySpace |>.reverse

/-- Python `s.strip()` on strings. -/
def pyStrip (s : String) : String :=
  ⟨pyStripList s.data⟩

/-- One scan step of Python `s.split(sep)` with non-empty separator:
returns the segment before the first occurrence of `sep` and the remainder
after it, if `sep` occurs. -/
def splitOnceAux (sep : List Char) : Nat → List Char → Option (List Char × List Char)
  | 0, _ => none
  | _ + 1, [] => none
  | fuel + 1, c :: rest =>
    if sep.isPrefixOf (c :: rest) then
      some ([], (c :: rest).drop sep.length)
    else
      match splitOnceAux sep fuel rest with
      | some (pre, post) => some (c :: pre, post)
      | none => none

/-- First split of Python `s.split(sep)`. -/
def splitOnce (sep s : List Char) : Option (List Char × List Char) :=
  splitOnceAux sep s.length s

/-- Python digit parsing for `int(s)` after stripping: optional sign followed
by one or more ASCII digits (the only shapes the sources feed to `int`). -/
def parseDigits : List Char → Option Nat
  | [] => none
  | l => l.foldl (fun acc c => acc.bind (fun n =>
      if c.isDigit then some (n * 10 + (c.toNat - '0'.toNat)) else none)) (some 0)

/-- Python `int(s)` on the string shapes appearing in the sources
(`none` models the `ValueError` raised on anything else). -/
def pyInt (s : String) : Option Int :=
  match pyStripList s.data with
  | '-' :: rest => (parseDigits rest).map (fun n => -(n : Int))
  | '+' :: rest => (parseDigits rest).map (fun n => (n : Int))
  | l => (parseDigits l).map (fun n => (n : Int))

/-! ### Basic lemmas about the string primitives -/

theorem pyReplaceAux_nil (pat rep : List Char) (fuel : Nat) :
    pyReplaceAux pat rep fuel [] = [] := by
  cases fuel <;> rfl

/-- Unfolding equation of `pyReplaceAux` for a head match. -/
theorem pyReplaceAux_cons_pos (pat rep : List Char) (c : Char) (rest : List Char)
    (fuel : Nat) (hne : pat ≠ []) (hpref : pat.isPrefixOf (c :: rest) = true) :
    pyReplaceAux pat rep (fuel + 1) (c :: rest)
      = rep ++ pyReplaceAux pat rep fuel ((c :: rest).drop pat.length) := by
  rw [pyReplaceAux, if_pos ⟨hne, hpref⟩]

/-- Unfolding equation of `pyReplaceAux` for a non-matching head. -/
theorem pyReplaceAux_cons_neg (pat rep : List Char) (c : Char) (rest : List Char)
    (fuel : Nat) (h : pat.isPrefixOf (c :: rest) = false) :
    pyReplaceAux pat rep (fuel + 1) (c :: rest)
      = c :: pyReplaceAux pat rep fuel rest := by
  rw [pyReplaceAux, if_neg]
  intro ⟨_, hp⟩
  rw [h] at hp
  exact Bool.false_ne_true hp

/-- Unfolding equation of `pyReplaceAux` for the (unused) empty pattern. -/
theorem pyReplaceAux_cons_empty (rep : List Char) (c : Char) (rest : List Char)
    (fuel : Nat) :
    pyReplaceAux [] rep (fuel + 1) (c :: rest)
      = c :: pyReplaceAux [] rep fuel rest := by
  rw [pyReplaceAux, if_neg]
  intro ⟨h, _⟩
  exact h rfl

theorem isPrefixOf_length_le {l₁ l₂ : List Char} (h : l₁.isPrefixOf l₂ = true) :
    l₁.length ≤ l₂.length :=
  (List.isPrefixOf_iff_prefix.mp h).length_le

/-- The fuel argument of `pyReplaceAux` is irrelevant once it dominates the
length of the scanned list. -/
theorem pyReplaceAux_fuel (pat rep : List Char) :
    ∀ (f₁ : Nat) (s : List Char) (f₂ : Nat), s.length ≤ f₁ → s.length ≤ f₂ →
      pyReplaceAux pat rep f₁ s = pyReplaceAux pat rep f₂ s := by
  intro f₁
  induction f₁ with
  | zero =>
    intro s f₂ h₁ _
    have : s = [] := List.length_eq_zero.mp (Nat.le_zero.mp h₁)
    subst this
    rw [pyReplaceAux_nil, pyReplaceAux_nil]
  | succ f ih =>
    intro s f₂ h₁ h₂
    cases s with
    | nil => rw [pyReplaceAux_nil, pyReplaceAux_nil]
    | cons c rest =>
      cases f₂ with
      | zero => simp at h₂
      | succ f₂' =>
        have hne_or := Bool.eq_false_or_eq_true (pat.isPrefixOf (c :: rest))
        by_cases hne : pat = []
        · subst hne
          rw [pyReplaceAux_cons_empty rep c rest f, pyReplaceAux_cons_empty rep c rest f₂']
          congr 1
          have h₁' : rest.length ≤ f := by simp at h₁; omega
          have h₂' : rest.length ≤ f₂' := by simp at h₂; omega
          exact ih rest f₂' h₁' h₂'
        · rcases hne_or with htrue | hfalse
          · rw [pyReplaceAux_cons_pos pat rep c rest f hne htrue,
                pyReplaceAux_cons_pos pat rep c rest f₂' hne htrue]
            congr 1
            have hpatlen : 1 ≤ pat.length := by
              cases pat with
              | nil => exact absurd rfl hne
              | cons a as => simp
            have hdrop : ((c :: rest).drop pat.length).length ≤ rest.length := by
              rw [List.length_drop]
              simp only [List.length_cons]
              omega
            have h₁' : rest.length ≤ f := by simp at h₁; omega
            have h₂' : rest.length ≤ f₂' := by simp at h₂; omega
            exact ih _ f₂' (le_trans hdrop h₁') (le_trans hdrop h₂')
          · rw [pyReplaceAux_cons_neg pat rep c rest f hfalse,
                pyReplaceAux_cons_neg pat rep c rest f₂' hfalse]
            congr 1
            have h₁' : rest.length ≤ f := by simp at h₁; omega
            have h₂' : rest.length ≤ f₂' := by simp at h₂; omega
            exact ih rest f₂' h₁' h₂'

/-- Step lemma: a match at the head of the list is replaced. -/
theorem pyReplace_match (pat rep t : List Char) (hne : pat ≠ []) :
    pyReplace pat rep (pat ++ t) = rep ++ pyReplace pat rep t := by
  cases pat with
  | nil => exact absurd rfl hne
  | cons p ps =>
    show pyReplaceAux (p :: ps) rep ((p :: ps) ++ t).length ((p :: ps) ++ t) = _
    have hlen : ((p :: ps) ++ t).length = (ps.length + t.length) + 1 := by
      simp only [List.cons_append, List.length_cons, List.length_append]
    have hpref : (p :: ps).isPrefixOf ((p :: ps) ++ t) = true :=
      List.isPrefixOf_iff_prefix.mpr (List.prefix_append _ _)
    rw [hlen, show ((p :: ps) ++ t : List Char) = p :: (ps ++ t) from rfl,
        pyReplaceAux_cons_pos (p :: ps) rep p (ps ++ t) (ps.length + t.length) hne
          (by exact hpref)]
    congr 1
    have hdrop : (p :: (ps ++ t)).drop (p :: ps).length = t := by
      show ((p :: ps) ++ t).drop (p :: ps).length = t
      exact List.drop_left _ _
    rw [hdrop]
    exact pyReplaceAux_fuel (p :: ps) rep (ps.length + t.length) t t.length
      (by omega) (le_refl _)

/-- Step lemma: a non-matching head character is kept. -/
theorem pyReplace_skip (pat rep : List Char) (c : Char) (t : List Char)
    (h : pat.isPrefixOf (c :: t) = false) :
    pyReplace pat rep (c :: t) = c :: pyReplace pat rep t := by
  show pyReplaceAux pat rep (c :: t).length (c :: t) = _
  rw [show (c :: t).length = t.length + 1 from by simp,
      pyReplaceAux_cons_neg pat rep c t t.length h]
  rfl

theorem pyReplace_nil (pat rep : List Char) : pyReplace pat rep [] = [] := rfl

/-- Replacement of a single-character pattern is a character-wise flat map. -/
theorem pyReplace_single (c : Char) (rep : List Char) :
    ∀ s : List Char,
      pyReplace [c] rep s = s.flatMap (fun a => if a = c then rep else [a]) := by
  intro s
  induction s with
  | nil => rfl
  | cons a t ih =>
    by_cases hac : a = c
    · subst hac
      rw [show pyReplace [a] rep (a :: t) = rep ++ pyReplace [a] rep t from
            pyReplace_match [a] rep t (by simp), ih, List.flatMap_cons]
      simp
    · have hpf : ([c].isPrefixOf (a :: t)) = false := by
        simp [List.isPrefixOf]
        exact fun h => absurd h.symm hac
      rw [pyReplace_skip [c] rep a t hpf, ih, List.flatMap_cons]
      simp [hac]

/-- `flatMap` respects pointwise-on-members equality of the mapped function. -/
theorem flatMap_congr_mem {α β : Type} (l : List α) (f g : α → List β)
    (h : ∀ a ∈ l, f a = g a) : l.flatMap f = l.flatMap g := by
  induction l with
  | nil => rfl
  | cons a t ih =>
    rw [List.flatMap_cons, List.flatMap_cons, h a (List.mem_cons_self a t),
      ih (fun b hb => h b (List.mem_cons_of_mem a hb))]

theorem flatMap_id_singleton {α : Type} (l : List α) :
    l.flatMap (fun a => [a]) = l := by
  induction l with
  | nil => rfl
  | cons a t ih => rw [List.flatMap_cons, ih]; rfl

/-- If the first character of the pattern occurs nowhere in the scanned list,
replacement is the identity. -/
theorem pyReplace_no_occurrence (d : Char) (l rep : List Char) :
    ∀ t : List Char, (∀ c ∈ t, c ≠ d) → pyReplace (d :: l) rep t = t := by
  intro t
  induction t with
  | nil => intro _; rfl
  | cons a r ih =>
    intro h
    have hne : a ≠ d := h a (List.mem_cons_self a r)
    have hpf : ((d :: l).isPrefixOf (a :: r)) = false := by
      simp [List.isPrefixOf]
      exact fun hh => absurd hh.symm hne
    rw [pyReplace_skip (d :: l) rep a r hpf, ih (fun c hc => h c (List.mem_cons_of_mem a hc))]

/-! ### Filename sanitization (scraper.py `_sanitize_filename`,
parse.py `_sanitize_filename` / `_unsanitize_filename`; the two classes
define the identical sanitizer). -/

/-- `certificate_id.replace('/', '_').replace('=', '_eq_').replace('+', '_plus_')` -/
def sanitize_filename (certificate_id : String) : String :=
  pyStrReplace (pyStrReplace (pyStrReplace certificate_id "/" "_") "=" "_eq_") "+" "_plus_"

/-- `filename.replace('.html', '')` followed by
`.replace('_plus_', '+').replace('_eq_', '=').replace('_', '/')` -/
def unsanitize_filename (filename : String) : String :=
  let cert_id := pyStrReplace filename ".html" ""
  pyStrReplace (pyStrReplace (pyStrReplace cert_id "_plus_" "+") "_eq_" "=") "_" "/"

/-- The character set of certificate ids named by the spec: digits and the
three escaped characters. -/
def isIdChar (c : Char) : Bool :=
  c.isDigit || c = '/' || c = '=' || c = '+'

/-- Per-character encoding realized by the three sanitizing replacements. -/
def encChar (c : Char) : List Char :=
  if c = '/' then ['_']
  else if c = '=' then ['_', 'e', 'q', '_']
  else if c = '+' then ['_', 'p', 'l', 'u', 's', '_'] else [c]

/-- Encoding state after `'_plus_' → '+'` has been undone. -/
def encNoPlus (c : Char) : List Char :=
  if c = '/' then ['_'] else if c = '=' then ['_', 'e', 'q', '_'] else [c]

/-- Encoding state after `'_eq_' → '='` has also been undone. -/
def encSlashOnly (c : Char) : List Char :=
  if c = '/' then ['_'] else [c]

theorem digit_ne_special {c : Char} (h : c.isDigit = true) :
    c ≠ '_' ∧ c ≠ 'p' ∧ c ≠ 'e' ∧ c ≠ '.' ∧ c ≠ '/' ∧ c ≠ '=' ∧ c ≠ '+' := by
  refine ⟨?_, ?_, ?_, ?_, ?_, ?_, ?_⟩ <;>
    (intro he; subst he; exact absurd h (by decide))

theorem idChar_cases {c : Char} (h : isIdChar c = true) :
    c.isDigit = true ∨ c = '/' ∨ c = '=' ∨ c = '+' := by
  simp [isIdChar] at h
  tauto

/-- The sanitizing replacement chain acts character-wise as `encChar`. -/
theorem sanitize_data (s : List Char) :
    pyReplace ['+'] ['_', 'p', 'l', 'u', 's', '_']
        (pyReplace ['='] ['_', 'e', 'q', '_'] (pyReplace ['/'] ['_'] s))
      = s.flatMap encChar := by
  rw [pyReplace_single, pyReplace_single, pyReplace_single,
      List.flatMap_assoc, List.flatMap_assoc]
  refine flatMap_congr_mem s _ _ (fun a _ => ?_)
  by_cases h1 : a = '/'
  · subst h1; decide
  by_cases h2 : a = '='
  · subst h2; decide
  by_cases h3 : a = '+'
  · subst h3; decide
  · simp [h1, h2, h3, encChar]

/-- No encoded id ever starts with `'p'` (so a leading `'_'` is never the
start of a `'_plus_'` escape unless it came from `'+'`). -/
theorem encChar_flatMap_not_prefix_p (rest : List Char)
    (h : ∀ c ∈ rest, isIdChar c = true) (l : List Char) :
    (('p' :: l).isPrefixOf (rest.flatMap encChar)) = false := by
  cases rest with
  | nil => rfl
  | cons c r =>
    have hc := idChar_cases (h c (List.mem_cons_self c r))
    rw [List.flatMap_cons]
    rcases hc with hd | h1 | h1 | h1
    · have hne := (digit_ne_special hd).2.1
      rw [show encChar c = [c] from by
            simp [encChar, (digit_ne_special hd).2.2.2.2.1,
              (digit_ne_special hd).2.2.2.2.2.1, (digit_ne_special hd).2.2.2.2.2.2]]
      simp [List.isPrefixOf]
      exact fun hh => absurd hh.symm hne
    all_goals (subst h1; simp [encChar, List.isPrefixOf])

theorem isPrefixOf_cons_head_ne {a b : Char} (l t : List Char) (h : b ≠ a) :
    ((a :: l).isPrefixOf (b :: t)) = false := by
  show (a == b && l.isPrefixOf t) = false
  rw [beq_eq_false_iff_ne.mpr (fun hh => h hh.symm), Bool.false_and]

theorem isPrefixOf_cons_step (a : Char) (l t : List Char) :
    ((a :: l).isPrefixOf (a :: t)) = l.isPrefixOf t := by
  show (a == a && l.isPrefixOf t) = _
  rw [beq_self_eq_true, Bool.true_and]

/-- No partially-decoded id ever starts with `'e'`. -/
theorem encNoPlus_flatMap_not_prefix_e (rest : List Char)
    (h : ∀ c ∈ rest, isIdChar c = true) (l : List Char) :
    (('e' :: l).isPrefixOf (rest.flatMap encNoPlus)) = false := by
  cases rest with
  | nil => rfl
  | cons c r =>
    have hc := idChar_cases (h c (List.mem_cons_self c r))
    rw [List.flatMap_cons]
    rcases hc with hd | h1 | h1 | h1
    · have hne := (digit_ne_special hd).2.2.1
      rw [show encNoPlus c = [c] from by
            simp [encNoPlus, (digit_ne_special hd).2.2.2.2.1,
              (digit_ne_special hd).2.2.2.2.2.1]]
      simp [List.isPrefixOf]
      exact fun hh => absurd hh.symm hne
    all_goals (subst h1; simp [encNoPlus, List.isPrefixOf])

/-- Undoing `'_plus_' → '+'` on an encoded id decodes exactly the `'+'`
escapes. -/
theorem decode_plus : ∀ s : List Char, (∀ c ∈ s, isIdChar c = true) →
    pyReplace ['_', 'p', 'l', 'u', 's', '_'] ['+'] (s.flatMap encChar)
      = s.flatMap encNoPlus := by
  intro s
  induction s with
  | nil => intro _; rfl
  | cons c r ih =>
    intro h
    have hr : ∀ d ∈ r, isIdChar d = true := fun d hd => h d (List.mem_cons_of_mem c hd)
    have hc := idChar_cases (h c (List.mem_cons_self c r))
    rw [List.flatMap_cons, List.flatMap_cons]
    rcases hc with hd | h1 | h1 | h1
    · have hspec := digit_ne_special hd
      rw [show encChar c = [c] from by
            simp [encChar, hspec.2.2.2.2.1, hspec.2.2.2.2.2.1, hspec.2.2.2.2.2.2],
          show encNoPlus c = [c] from by
            simp [encNoPlus, hspec.2.2.2.2.1, hspec.2.2.2.2.2.1],
          show ([c] ++ r.flatMap encChar : List Char) = c :: r.flatMap encChar from rfl,
          pyReplace_skip _ _ c _ (isPrefixOf_cons_head_ne _ _ hspec.1), ih hr]
      rfl
    · subst h1
      rw [show encChar '/' = ['_'] from rfl, show encNoPlus '/' = ['_'] from rfl,
          show (['_'] ++ r.flatMap encChar : List Char) = '_' :: r.flatMap encChar from rfl,
          pyReplace_skip _ _ '_' _ (by
            rw [isPrefixOf_cons_step]
            exact encChar_flatMap_not_prefix_p r hr _), ih hr]
      rfl
    · subst h1
      rw [show encChar '=' = ['_', 'e', 'q', '_'] from rfl,
          show encNoPlus '=' = ['_', 'e', 'q', '_'] from rfl,
          show (['_', 'e', 'q', '_'] ++ r.flatMap encChar : List Char)
            = '_' :: 'e' :: 'q' :: '_' :: r.flatMap encChar from rfl,
          pyReplace_skip _ _ '_' _ (by
            rw [isPrefixOf_cons_step]
            exact isPrefixOf_cons_head_ne _ _ (by decide)),
          pyReplace_skip _ _ 'e' _ (isPrefixOf_cons_head_ne _ _ (by decide)),
          pyReplace_skip _ _ 'q' _ (isPrefixOf_cons_head_ne _ _ (by decide)),
          pyReplace_skip _ _ '_' _ (by
            rw [isPrefixOf_cons_step]
            exact encChar_flatMap_not_prefix_p r hr _), ih hr]
      rfl
    · subst h1
      rw [show encChar '+' = ['_', 'p', 'l', 'u', 's', '_'] from rfl,
          show encNoPlus '+' = ['+'] from rfl,
          pyReplace_match _ _ _ (by simp), ih hr]

/-- Undoing `'_eq_' → '='` next decodes exactly the `'='` escapes. -/
theorem decode_eq : ∀ s : List Char, (∀ c ∈ s, isIdChar c = true) →
    pyReplace ['_', 'e', 'q', '_'] ['='] (s.flatMap encNoPlus)
      = s.flatMap encSlashOnly := by
  intro s
  induction s with
  | nil => intro _; rfl
  | cons c r ih =>
    intro h
    have hr : ∀ d ∈ r, isIdChar d = true := fun d hd => h d (List.mem_cons_of_mem c hd)
    have hc := idChar_cases (h c (List.mem_cons_self c r))
    rw [List.flatMap_cons, List.flatMap_cons]
    rcases hc with hd | h1 | h1 | h1
    · have hspec := digit_ne_special hd
      rw [show encNoPlus c = [c] from by
            simp [encNoPlus, hspec.2.2.2.2.1, hspec.2.2.2.2.2.1],
          show encSlashOnly c = [c] from by simp [encSlashOnly, hspec.2.2.2.2.1],
          show ([c] ++ r.flatMap encNoPlus : List Char) = c :: r.flatMap encNoPlus from rfl,
          pyReplace_skip _ _ c _ (isPrefixOf_cons_head_ne _ _ hspec.1), ih hr]
      rfl
    · subst h1
      rw [show encNoPlus '/' = ['_'] from rfl, show encSlashOnly '/' = ['_'] from rfl,
          show (['_'] ++ r.flatMap encNoPlus : List Char) = '_' :: r.flatMap encNoPlus from rfl,
          pyReplace_skip _ _ '_' _ (by
            rw [isPrefixOf_cons_step]
            exact encNoPlus_flatMap_not_prefix_e r hr _), ih hr]
      rfl
    · subst h1
      rw [show encNoPlus '=' = ['_', 'e', 'q', '_'] from rfl,
          show encSlashOnly '=' = ['='] from rfl,
          pyReplace_match _ _ _ (by simp), ih hr]
    · subst h1
      rw [show encNoPlus '+' = ['+'] from rfl, show encSlashOnly '+' = ['+'] from rfl,
          show (['+'] ++ r.flatMap encNoPlus : List Char) = '+' :: r.flatMap encNoPlus from rfl,
          pyReplace_skip _ _ '+' _ (isPrefixOf_cons_head_ne _ _ (by decide)), ih hr]
      rfl

/-- Undoing `'_' → '/'` last recovers the original id. -/
theorem decode_underscore (s : List Char) (h : ∀ c ∈ s, isIdChar c = true) :
    pyReplace ['_'] ['/'] (s.flatMap encSlashOnly) = s := by
  rw [pyReplace_single, List.flatMap_assoc]
  have hpt : ∀ a ∈ s,
      (encSlashOnly a).flatMap (fun b => if b = '_' then ['/'] else [b]) = [a] := by
    intro a ha
    rcases idChar_cases (h a ha) with hd | h1 | h1 | h1
    · have hspec := digit_ne_special hd
      simp [encSlashOnly, hspec.2.2.2.2.1, hspec.1]
    all_goals (subst h1; decide)
  rw [flatMap_congr_mem s _ _ hpt, flatMap_id_singleton]

/-- Characters of an encoded id never include `'.'`, so the `'.html'`
stripping step of `_unsanitize_filename` is the identity on sanitized ids. -/
theorem encChar_no_dot (s : List Char) (h : ∀ c ∈ s, isIdChar c = true) :
    ∀ d ∈ s.flatMap encChar, d ≠ '.' := by
  intro d hd
  rcases List.mem_flatMap.mp hd with ⟨a, ha, hda⟩
  rcases idChar_cases (h a ha) with hdig | h1 | h1 | h1
  · have hspec := digit_ne_special hdig
    rw [show encChar a = [a] from by
          simp [encChar, hspec.2.2.2.2.1, hspec.2.2.2.2.2.1, hspec.2.2.2.2.2.2]] at hda
    rw [List.mem_singleton.mp hda]
    exact hspec.2.2.2.1
  all_goals (subst h1; intro he; subst he; exact absurd hda (by decide))

/-- C7: sanitizing a certificate id drawn from digits and `'/'`, `'='`, `'+'`
for filesystem storage and reversing the sanitization is a lossless round
trip, `unsanitize(sanitize(x)) = x`
(scraper.py/parse.py `_sanitize_filename`, parse.py `_unsanitize_filename`). -/
theorem sanitize_unsanitize_roundtrip (id : String)
    (h : ∀ c ∈ id.data, isIdChar c = true) :
    unsanitize_filename (sanitize_filename id) = id := by
  show String.mk _ = id
  have hdata : (sanitize_filename id).data = id.data.flatMap encChar := by
    show pyReplace _ _ (pyReplace _ _ (pyReplace _ _ id.data)) = _
    exact sanitize_data id.data
  have hstrip :
      pyReplace ('.' :: ('h' :: 't' :: 'm' :: 'l' :: [])) []
          (id.data.flatMap encChar) = id.data.flatMap encChar :=
    pyReplace_no_occurrence _ _ _ _ (encChar_no_dot id.data h)
  calc String.mk (pyReplace ['_'] ['/'] (pyReplace ['_', 'e', 'q', '_'] ['=']
          (pyReplace ['_', 'p', 'l', 'u', 's', '_'] ['+']
            (pyReplace ['.', 'h', 't', 'm', 'l'] [] (sanitize_filename id).data))))
      = String.mk (pyReplace ['_'] ['/'] (pyReplace ['_', 'e', 'q', '_'] ['=']
          (pyReplace ['_', 'p', 'l', 'u', 's', '_'] ['+'] (id.data.flatMap encChar)))) := by
        rw [hdata, hstrip]
    _ = String.mk id.data := by
        rw [decode_plus id.data h, decode_eq id.data h, decode_underscore id.data h]
    _ = id := rfl

/-! ### Shared validity predicate and payload splitting

`is_html_valid` is defined identically in `scraper.py` (`CBFCScraper`) and
`parse.py` (`CBFCParser`); both read the per-id cache under `raw/html/`. -/

/-- The filesystem: a map from paths to file contents (`none` = no file). -/
def FS : Type := String → Option String

/-- Path of the cached raw HTML for a certificate id
(`Path('raw/html') / f"{safe_filename}.html"`). -/
def html_path (certificate_id : String) : String :=
  "raw/html/" ++ sanitize_filename certificate_id ++ ".html"

/-- `is_html_valid`: too-short bodies, bodies without the `//OK` success
marker, and bodies carrying the "does not exist" message are invalid. -/
def is_html_valid (html_content : String) : Bool :=
  if html_content.data.isEmpty || html_content.length < 100 then false
  else if !(strContains html_content "//OK") then false
  else if strContains html_content "This certificate does not exist in our database" then false
  else true

/-- Python `text.split(sep)[1]`: the segment between the first and the second
occurrence of `sep` (or everything after the first occurrence when it is the
only one); `none` models the `IndexError` when `sep` does not occur. -/
def pySplitIndex1 (sep s : List Char) : Option (List Char) :=
  match splitOnce sep s with
  | none => none
  | some (_, rest) =>
    match splitOnce sep rest with
    | none => some rest
    | some (seg, _) => some seg

/-- `text.split('//OK')[1].strip()`. -/
def dataParts (s : String) : Option String :=
  (pySplitIndex1 "//OK".data s.data).map (fun l => ⟨pyStripList l⟩)

/-! ### Scraper (`scraper.py`, `CBFCScraper`) -/

namespace Scraper

/-- `html_exists_and_valid`: returns the cached content exactly when the file
exists and passes `is_html_valid` (the model's `Option String` packages the
`(bool, Optional[str])` pair of the source: `some h` = `(True, h)`). -/
def html_exists_and_valid (fs : FS) (certificate_id : String) : Option String :=
  match fs (html_path certificate_id) with
  | none => none
  | some html_content =>
    if is_html_valid html_content then some html_content else none

/-- Result of one `get_certificate_details` call: the returned value, the
filesystem afterwards, whether a POST was issued, and which response body the
parse step was fed. -/
structure FetchResult where
  result : Option String
  fs : FS
  posted : Bool
  used : Option String

/-- `get_certificate_details`.  `net` is the network: POSTing the RPC payload
for an id either yields the response body or raises (`Except.error`, covering
request exceptions and `raise_for_status`).  `evalF` abstracts Python's
`eval` of the payload segment: it either raises or returns the truthiness of
the parsed value.  The broad `except` of the source turns every raised error
into a `none` result; writes performed before the raise survive in `fs`. -/
def get_certificate_details (fs : FS) (net : String → Except Unit String)
    (evalF : String → Except Unit Bool) (certificate_id : String) : FetchResult :=
  match html_exists_and_valid fs certificate_id with
  | some existing_html =>
    -- cache hit: no POST, parse the existing body
    (match dataParts existing_html with
     | none => ⟨none, fs, false, some existing_html⟩
     | some dp =>
       match evalF dp with
       | .error _ => ⟨none, fs, false, some existing_html⟩
       | .ok b => ⟨if b then some certificate_id else none, fs, false, some existing_html⟩)
  | none =>
    -- cache miss or invalid cache: POST the RPC payload
    (match net certificate_id with
     | .error _ => ⟨none, fs, true, none⟩
     | .ok resp =>
       if !is_html_valid resp then ⟨none, fs, true, none⟩
       else
         -- save the raw body, then parse it
         let fs' : FS := fun p => if p = html_path certificate_id then some resp else fs p
         match dataParts resp with
         | none => ⟨none, fs', true, some resp⟩
         | some dp =>
           match evalF dp with
           | .error _ => ⟨none, fs', true, some resp⟩
           | .ok b => ⟨if b then some certificate_id else none, fs', true, some resp⟩)

end Scraper

/-! ### Parser (`parse.py`, `CBFCParser`) -/

namespace Parse

/-- Values of the evaluated payload literal: nested lists of strings and
numbers (the shapes `eval(data_parts)` produces on this site's responses). -/
inductive PyVal where
  | str (s : String)
  | num (n : Int)
  | list (l : List PyVal)

/-- Keys of the `required_fields` dict of `extract_main_data`. -/
inductive MField where
  | certificate_id | title | category | language | format
  | duration | applicant | certifier | synopsis
deriving DecidableEq

/-- The `required_fields` dict: per key, the currently recorded index. -/
def FieldIdx : Type := MField → Option Int

/-- `{'certificate_id': -1, 'title': None, ...}` -/
def initFields : FieldIdx := fun f =>
  match f with
  | .certificate_id => some (-1)
  | _ => none

def setField (fi : FieldIdx) (f : MField) (i : Int) : FieldIdx :=
  fun g => if g = f then some i else fi g

/-- `item.endswith('MM.SS')` -/
def ruleDuration (s : String) : Bool := strEndsWith s "MM.SS"

/-- `any(x in item.lower() for x in ['theatrical', 'video'])` -/
def ruleCategory (s : String) : Bool :=
  strContains (strLower s) "theatrical" || strContains (strLower s) "video"

/-- `any(x in item.lower() for x in ['malayalam', 'hindi', 'tamil'])` -/
def ruleLanguage (s : String) : Bool :=
  strContains (strLower s) "malayalam" || strContains (strLower s) "hindi"
    || strContains (strLower s) "tamil"

/-- `'long' in item.lower()` -/
def ruleFormat (s : String) : Bool := strContains (strLower s) "long"

/-- `'(' in item and ')' in item and len(item) > 20` -/
def ruleApplicant (s : String) : Bool :=
  strContains s "(" && strContains s ")" && decide (s.length > 20)

/-- `'E.O.' in item or 'CBFC' in item` -/
def ruleCertifier (s : String) : Bool :=
  strContains s "E.O." || strContains s "CBFC"

/-- `len(item) > 50` -/
def ruleSynopsis (s : String) : Bool := decide (s.length > 50)

/-- `item.isupper() and len(item) < 30` -/
def ruleTitle (s : String) : Bool := pyIsUpper s && decide (s.length < 30)

/-- The `elif` chain of `extract_main_data`: which field key a string item
assigns.  An earlier rule shadows all later ones for the same string. -/
def firedField (s : String) : Option MField :=
  if ruleDuration s then some .duration
  else if ruleCategory s then some .category
  else if ruleLanguage s then some .language
  else if ruleFormat s then some .format
  else if ruleApplicant s then some .applicant
  else if ruleCertifier s then some .certifier
  else if ruleSynopsis s then some .synopsis
  else if ruleTitle s then some .title
  else none

/-- One step of the `for i, item in enumerate(main_data)` loop. -/
def classifyStep (fi : FieldIdx) (p : Nat × PyVal) : FieldIdx :=
  match p.2 with
  | .str s =>
    match firedField s with
    | some f => setField fi f (p.1 : Int)
    | none => fi
  | _ => fi

/-- The `for ... else` search for the main sub-array: the first nested list
longer than 5 elements. -/
def findMainData : List PyVal → Option (List PyVal)
  | [] => none
  | .list l :: rest => if l.length > 5 then some l else findMainData rest
  | _ :: rest => findMainData rest

/-- Python list indexing with negative-index wraparound
(`main_data[index]`; `none` models `IndexError`). -/
def pyIndex (l : List PyVal) (i : Int) : Option PyVal :=
  if 0 ≤ i then l.get? i.toNat
  else if 0 ≤ (l.length : Int) + i then l.get? ((l.length : Int) + i).toNat
  else none

/-- The flat record assembled by `extract_main_data`. -/
structure MainInfo where
  certificate_id : Option PyVal := none
  title : Option PyVal := none
  category : Option PyVal := none
  language : Option PyVal := none
  format : Option PyVal := none
  duration : Option PyVal := none
  applicant : Option PyVal := none
  certifier : Option PyVal := none
  synopsis : Option PyVal := none

/-- `if index is not None and index < len(main_data): main_info[key] = main_data[index]` -/
def fieldValue (main_data : List PyVal) (idx : Option Int) : Option PyVal :=
  match idx with
  | none => none
  | some i => if i < (main_data.length : Int) then pyIndex main_data i else none

/-- `extract_main_data` (parse.py lines 137-183; `data-scripts/scrape` has the
same function with the key `'id'` in place of `'certificate_id'`). -/
def extract_main_data (data_array : List PyVal) : MainInfo :=
  match findMainData data_array with
  | none => {}
  | some main_data =>
    let fi := (main_data.enum).foldl classifyStep initFields
    { certificate_id := fieldValue main_data (fi .certificate_id)
      title := fieldValue main_data (fi .title)
      category := fieldValue main_data (fi .category)
      language := fieldValue main_data (fi .language)
      format := fieldValue main_data (fi .format)
      duration := fieldValue main_data (fi .duration)
      applicant := fieldValue main_data (fi .applicant)
      certifier := fieldValue main_data (fi .certifier)
      synopsis := fieldValue main_data (fi .synopsis) }

/-- Index of the last string item (scanning left to right, later wins) whose
`firedField` is `f`. -/
def lastFire (f : MField) : List (Nat × PyVal) → Option Nat
  | [] => none
  | p :: t =>
    match lastFire f t with
    | some n => some n
    | none =>
      match p.2 with
      | .str s => if firedField s = some f then some p.1 else none
      | _ => none

/-- Index of the last string item satisfying a predicate. -/
def lastStrMatch (q : String → Bool) : List (Nat × PyVal) → Option Nat
  | [] => none
  | p :: t =>
    match lastStrMatch q t with
    | some n => some n
    | none =>
      match p.2 with
      | .str s => if q s then some p.1 else none
      | _ => none

/-! The shadowing-explicit forms of the eight rules: each later rule fires
only when every earlier rule fails. -/

def firesDuration (s : String) : Bool := ruleDuration s

def firesCategory (s : String) : Bool := !ruleDuration s && ruleCategory s

def firesLanguage (s : String) : Bool :=
  !ruleDuration s && !ruleCategory s && ruleLanguage s

def firesFormat (s : String) : Bool :=
  !ruleDuration s && !ruleCategory s && !ruleLanguage s && ruleFormat s

def firesApplicant (s : String) : Bool :=
  !ruleDuration s && !ruleCategory s && !ruleLanguage s && !ruleFormat s
    && ruleApplicant s

def firesCertifier (s : String) : Bool :=
  !ruleDuration s && !ruleCategory s && !ruleLanguage s && !ruleFormat s
    && !ruleApplicant s && ruleCertifier s

def firesSynopsis (s : String) : Bool :=
  !ruleDuration s && !ruleCategory s && !ruleLanguage s && !ruleFormat s
    && !ruleApplicant s && !ruleCertifier s && ruleSynopsis s

def firesTitle (s : String) : Bool :=
  !ruleDuration s && !ruleCategory s && !ruleLanguage s && !ruleFormat s
    && !ruleApplicant s && !ruleCertifier s && !ruleSynopsis s && ruleTitle s

/-! #### Modifications table (`parse_modifications_table`) -/

/-- One `<tr>` of the embedded table: the texts of its `<td>` cells (the
`get_text()` results, which is all the parser reads from them). -/
structure HRow where
  cells : List String

/-- The `<table>` found inside the endorsement fragment: its `<tr>` rows,
header first. -/
structure HTable where
  rows : List HRow

/-- One modification ("cut") record. -/
structure Modification where
  cut_no : Int
  description : String
  deleted : String
  replaced : String
  inserted : String

/-- The `for row in rows` loop: rows with exactly 5 cells become records;
`int(...)` on a non-numeric first cell raises (`Except.error`), which
propagates out of `parse_modifications_table` to the caller's handler.
`clean_text` (a regex-based text normalizer) is passed as a parameter: the
extraction structure does not depend on it. -/
def parseModRows (clean_text : String → String) : List HRow → Except Unit (List Modification)
  | [] => .ok []
  | row :: rest =>
    if row.cells.length = 5 then
      match pyInt (pyStrip (row.cells.getD 0 "")) with
      | none => .error ()
      | some n =>
        match parseModRows clean_text rest with
        | .error e => .error e
        | .ok ms =>
          .ok ({ cut_no := n
                 description := clean_text (row.cells.getD 1 "")
                 deleted := clean_text (row.cells.getD 2 "")
                 replaced := clean_text (row.cells.getD 3 "")
                 inserted := clean_text (row.cells.getD 4 "") } :: ms)
    else
      parseModRows clean_text rest

/-- `parse_modifications_table`: no table means no modifications; otherwise
skip the header row (`find_all('tr')[1:]`) and convert the data rows. -/
def parse_modifications_table (clean_text : String → String) :
    Option HTable → Except Unit (List Modification)
  | none => .ok []
  | some table => parseModRows clean_text (table.rows.drop 1)

/-! #### `parse_certificate_details` -/

/-- Python truthiness of a `dict.get` result. -/
def pyTruthy : Option PyVal → Bool
  | none => false
  | some (.str s) => !s.data.isEmpty
  | some (.num n) => n != 0
  | some (.list l) => !l.isEmpty

/-- The certificate record being assembled: the `extract_main_data` fields
plus the keyed entries merged in by `update(credits)` / `update(endorsement)`
(in insertion order; a later entry overrides an earlier one and overrides the
like-named main field). -/
structure CertInfo where
  main : MainInfo
  extras : List (String × PyVal)

/-- `certificate_info.get(k)` on the merged record. -/
def certInfoGet (ci : CertInfo) (k : String) : Option PyVal :=
  match (ci.extras.reverse.find? (fun p => p.1 = k)).map (fun p => p.2) with
  | some v => some v
  | none =>
    if k = "certificate_id" then ci.main.certificate_id
    else if k = "title" then ci.main.title
    else if k = "category" then ci.main.category
    else if k = "language" then ci.main.language
    else if k = "format" then ci.main.format
    else if k = "duration" then ci.main.duration
    else if k = "applicant" then ci.main.applicant
    else if k = "certifier" then ci.main.certifier
    else if k = "synopsis" then ci.main.synopsis
    else none

/-- The nested scan for embedded HTML fragments (`'castCredit' in subitem`,
`'endorsementHeading' in subitem`), with the two BeautifulSoup-based fragment
parsers abstracted as oracles returning the key/value pairs they contribute. -/
def collectFragments (parse_credits parse_endorsement : String → List (String × PyVal))
    (parsed_data : List PyVal) : List (String × PyVal) :=
  parsed_data.foldl (fun acc item =>
    match item with
    | .list l =>
      l.foldl (fun acc sub =>
        match sub with
        | .str s =>
          if strContains s "castCredit" then acc ++ parse_credits s
          else if strContains s "endorsementHeading" then acc ++ parse_endorsement s
          else acc
        | _ => acc) acc
    | _ => acc) []

/-- The `try:` body of `parse_certificate_details`: read the cached HTML,
validate it, split out and `eval` the payload (`evalF` oracle), extract the
main fields, merge the fragment parsers' results, and keep the record only if
it has an id and one of the film-name variants.  `Except.error` = an
exception reaching the enclosing handler. -/
def parse_certificate_details_body (fs : FS)
    (evalF : String → Except Unit (List PyVal))
    (parse_credits parse_endorsement : String → List (String × PyVal))
    (certificate_id : String) : Except Unit (Option CertInfo) :=
  match fs (html_path certificate_id) with
  | none => .ok none
  | some html_content =>
    if !is_html_valid html_content then .ok none
    else
      match dataParts html_content with
      | none => .error ()
      | some dp =>
        match evalF dp with
        | .error e => .error e
        | .ok parsed_data =>
          let ci : CertInfo :=
            ⟨extract_main_data parsed_data,
             collectFragments parse_credits parse_endorsement parsed_data⟩
          if pyTruthy (certInfoGet ci "certificate_id")
              && (pyTruthy (certInfoGet ci "title")
                || pyTruthy (certInfoGet ci "film_name")
                || pyTruthy (certInfoGet ci "film_name_full")) then
            .ok (some ci)
          else
            .ok none

/-- `parse_certificate_details`: the body wrapped in the broad
`except`-returns-`None` handler. -/
def parse_certificate_details (fs : FS)
    (evalF : String → Except Unit (List PyVal))
    (parse_credits parse_endorsement : String → List (String × PyVal))
    (certificate_id : String) : Option CertInfo :=
  match parse_certificate_details_body fs evalF parse_credits parse_endorsement
      certificate_id with
  | .ok r => r
  | .error _ => none

/-! #### CSV accumulation (`process_all_certificates`, lines 362-399) -/

/-- A CSV row as `csv.DictReader`/`DictWriter` see it: an association list
built in insertion order; `dictSet` overwrites an existing key in place and
appends a fresh key, like a Python dict. -/
abbrev StrDict : Type := List (String × String)

def dictSet (d : StrDict) (k v : String) : StrDict :=
  if d.any (fun p => p.1 = k) then
    d.map (fun p => if p.1 = k then (k, v) else p)
  else
    d ++ [(k, v)]

def dictGet? (d : StrDict) (k : String) : Option String :=
  (d.find? (fun p => p.1 = k)).map (fun p => p.2)

/-- `dict(zip(header, values))` — how `DictReader` exposes a data line. -/
def dictOfZip (ks vs : List String) : StrDict :=
  (ks.zip vs).foldl (fun d p => dictSet d p.1 p.2) []

/-- The per-row step of the widening rewrite: read the row under the old
header, back-fill every new column with `''`, and write it out under the
widened header (`DictWriter(fieldnames=metadata_fields)` emits
`row.get(f)` for each field in order). -/
def rewriteRow (header new_fields : List String) (vals : List String) : List String :=
  let row := dictOfZip header vals
  let row := new_fields.foldl (fun r f => dictSet r f "") row
  (header ++ new_fields).map (fun f => (dictGet? row f).getD "")

/-- The whole-file rewrite triggered by new columns: widened header, all
prior rows rewritten, then the new record appended. -/
def widenMetadataFile (header : List String) (rows : List (List String))
    (new_fields : List String) (newRecord : StrDict) :
    List String × List (List String) :=
  (header ++ new_fields,
   rows.map (rewriteRow header new_fields)
     ++ [(header ++ new_fields).map (fun f => (dictGet? newRecord f).getD "")])

end Parse

/-! ### Scan loop (`main.py`) -/

namespace Main

/-- Python `set.add`: insert if absent (keeps the model's set as a
duplicate-free list). -/
def setInsert (s : List String) (x : String) : List String :=
  if x ∈ s then s else s ++ [x]

/-- Python `set.update`: union by repeated insertion
(`completed_ids.update(valid_ids)`). -/
def setUnion (s xs : List String) : List String :=
  xs.foldl setInsert s

/-- Lexicographic code-point comparison (Python string `<=`). -/
def strLexLe : List Char → List Char → Bool
  | [], _ => true
  | _ :: _, [] => false
  | a :: as, b :: bs =>
    if a.toNat < b.toNat then true
    else if b.toNat < a.toNat then false
    else strLexLe as bs

/-- Insertion step of `sorted()`. -/
def insertSorted (x : String) : List String → List String
  | [] => [x]
  | y :: t => if strLexLe x.data y.data then x :: y :: t else y :: insertSorted x t

/-- Python `sorted()` (ascending; on the duplicate-free id sets order is all
that matters). -/
def pySorted (l : List String) : List String :=
  l.foldr insertSorted []

/-- `save_completed_ids`: the persisted file content,
`json.dump(list(sorted(completed_ids)))`. -/
def save_completed_ids (completed : List String) : List String :=
  pySorted completed

/-- `f"{seq:08d}"`. -/
def pad8 (n : Nat) : String :=
  ⟨List.replicate (8 - (Nat.repr n).length) '0' ++ (Nat.repr n).data⟩

/-- `f"1000{region}0{year_code}{seq:08d}"`. -/
def certId (region year_code seq : Nat) : String :=
  "1000" ++ Nat.repr region ++ "0" ++ Nat.repr year_code ++ pad8 seq

/-- `int(current_batch[-1]) - int(current_batch[0]) <= batch_size` with
`batch_size = 10` (the generated ids are plain digit strings, so `int` always
succeeds on them). -/
def batchContiguous (batch : List String) : Bool :=
  (pyInt (batch.getLast?.getD "")).getD 0 - (pyInt (batch.head?.getD "")).getD 0 ≤ 10

/-- Record of one processed batch (model instrumentation: the loop's
behaviour on one flush of `current_batch`). -/
structure BatchInfo where
  batch : List String
  seqs : List Nat
  validCount : Nat
  contiguous : Bool

/-- The loop state of `process_region_year`.  `cache` is the set of ids whose
`raw/html` file exists and passes the validity check (the fetcher writes it on
every validated response); `snapshots` collects the persisted
`(completed-file, cache)` state after each `save_completed_ids` call;
`trace` records the processed batches. -/
structure ScanState where
  completed : List String
  cache : List String
  fails : Nat
  batch : List String
  batchSeqs : List Nat
  snapshots : List (List String × List String)
  trace : List BatchInfo
  lastValid : List String
  broke : Bool

/-- One id of the per-batch `for cert_id in current_batch` loop: a
cached-valid id is counted valid without fetching (`html_exists_and_valid`
path); otherwise `get_certificate_details` POSTs, and a response passing
`is_html_valid` (`W`) is saved to `raw/html` — so it enters the cache —
before the payload is evaluated; the fetch returns a truthy record, and the
id is counted valid, only when that eval also succeeds with a truthy parse
(`E`).  An eval exception or falsy parse makes the fetch return `None`: the
id is then cached but not valid. -/
def batchScanStep (W E : String → Bool) (acc : List String × List String)
    (cert_id : String) : List String × List String :=
  if cert_id ∈ acc.2 then (setInsert acc.1 cert_id, acc.2)
  else if W cert_id then
    (if E cert_id then setInsert acc.1 cert_id else acc.1,
      setInsert acc.2 cert_id)
  else acc

/-- The whole per-batch check: returns `(valid_ids, cache')`. -/
def batchScan (W E : String → Bool) (cache batch : List String) :
    List String × List String :=
  batch.foldl (batchScanStep W E) ([], cache)

/-- The flush block of `process_region_year` (lines 94-135): check the batch,
mark valid ids completed, persist, and update the consecutive-failure
counter, breaking at `max_failures`. -/
def processBatch (W E : String → Bool) (max_failures : Nat) (st : ScanState) :
    ScanState :=
  let vc := batchScan W E st.cache st.batch
  let valid_ids := vc.1
  let completed := setUnion st.completed valid_ids
  -- `if valid_ids: failures = 0; elif contiguous: failures += 1, breaking at
  -- max_failures; else failures unchanged` — written as one record update.
  { st with
    completed := completed
    cache := vc.2
    snapshots := st.snapshots ++ [(save_completed_ids completed, vc.2)]
    trace := st.trace ++
      [⟨st.batch, st.batchSeqs, valid_ids.length, batchContiguous st.batch⟩]
    lastValid := valid_ids
    fails := if valid_ids.isEmpty then
        (if batchContiguous st.batch then st.fails + 1 else st.fails)
      else 0
    broke := st.broke || (valid_ids.isEmpty && batchContiguous st.batch
      && decide (max_failures ≤ st.fails + 1)) }

/-- The `for seq in range(1, max_seq + 1)` loop: skip completed ids
(`continue` also skips the flush block), append to the batch, flush when the
batch is full or the sequence cap is reached, and stop on a break. -/
def scanGo (W E : String → Bool) (region year_code max_seq max_failures : Nat) :
    List Nat → ScanState → ScanState
  | [], st => st
  | seq :: rest, st =>
    let certificate_id := certId region year_code seq
    if certificate_id ∈ st.completed then
      scanGo W E region year_code max_seq max_failures rest st
    else
      let st1 := { st with
        batch := st.batch ++ [certificate_id]
        batchSeqs := st.batchSeqs ++ [seq] }
      if 10 ≤ st1.batch.length ∨ seq = max_seq then
        let st2 := processBatch W E max_failures st1
        if st2.broke then st2
        else
          scanGo W E region year_code max_seq max_failures rest
            { st2 with batch := [], batchSeqs := [] }
      else
        scanGo W E region year_code max_seq max_failures rest st1

def initState (completed₀ cache₀ : List String) : ScanState :=
  ⟨completed₀, cache₀, 0, [], [], [], [], [], false⟩

/-- `process_region_year`: scan the dense sequence range for one region/year
(`year_code = year + 900`), starting from the loaded completed-id set
(`completed₀`) and the existing raw-HTML cache (`cache₀`). -/
def process_region_year (W E : String → Bool)
    (completed₀ cache₀ : List String)
    (region year : Nat) (max_seq : Nat := 100000) (max_failures : Nat := 5) :
    ScanState :=
  scanGo W E region (year + 900) max_seq max_failures
    (List.range' 1 max_seq) (initState completed₀ cache₀)

/-- Whether an id is found valid when the scan reaches it with a fresh cache:
a valid cached body short-circuits fetching, otherwise the fetch must both
return a valid response and eval it to a truthy record. -/
def validAt (W E : String → Bool) (cache₀ : List String) (id : String) : Bool :=
  id ∈ cache₀ || (W id && E id)

/-- Specification of the failure streak over a batch trace: a batch with a
valid certificate resets it, a contiguous zero-valid batch increments it
(breaking at `max_failures`), and a non-contiguous zero-valid batch leaves it
unchanged. -/
def streakBreak (max_failures : Nat) : Nat → List BatchInfo → Bool
  | _, [] => false
  | f, e :: rest =>
    if e.validCount ≠ 0 then streakBreak max_failures 0 rest
    else if e.contiguous then
      if max_failures ≤ f + 1 then true else streakBreak max_failures (f + 1) rest
    else streakBreak max_failures f rest

/-- Length of the initial run of contiguous zero-valid batches. -/
def failRunFrom : List BatchInfo → Nat
  | [] => 0
  | e :: rest =>
    if e.validCount = 0 ∧ e.contiguous = true then failRunFrom rest + 1 else 0

/-- Whether some window of `mf` consecutive trace entries consists solely of
contiguous zero-valid batches (the termination condition as the claim states
it). -/
def hasFailRun (mf : Nat) : List BatchInfo → Bool
  | [] => decide (mf = 0)
  | e :: rest => decide (mf ≤ failRunFrom (e :: rest)) || hasFailRun mf rest

end Main

/-! ### Claim theorems -/

theorem sanitize_unsanitize_roundtrip_witness :
    (∀ c ∈ ("100/20=25+01" : String).data, isIdChar c = true)
    ∧ unsanitize_filename (sanitize_filename "100/20=25+01") = "100/20=25+01" :=
  ⟨by decide, sanitize_unsanitize_roundtrip "100/20=25+01" (by decide)⟩

/-- C1: for every certificate id whose cached HTML file exists and passes the
validity predicate, `get_certificate_details` issues no network POST and
feeds the cached content to the parse step. -/
theorem cache_hit_no_network (fs : FS) (net : String → Except Unit String)
    (evalF : String → Except Unit Bool) (certificate_id h : String)
    (hfile : fs (html_path certificate_id) = some h)
    (hvalid : is_html_valid h = true) :
    (Scraper.get_certificate_details fs net evalF certificate_id).posted = false
    ∧ (Scraper.get_certificate_details fs net evalF certificate_id).used = some h := by
  have hcache : Scraper.html_exists_and_valid fs certificate_id = some h := by
    unfold Scraper.html_exists_and_valid
    rw [hfile]
    show (if is_html_valid h = true then some h else none) = some h
    rw [if_pos hvalid]
  simp only [Scraper.get_certificate_details, hcache]
  constructor <;> (split <;> first | rfl | (split <;> rfl))

/-- A valid response body for witnesses: 100 filler characters followed by
the success marker and a payload. -/
def sampleValidHtml : String :=
  ⟨List.replicate 100 'a' ++ "//OK[[1]]".data⟩

theorem cache_hit_no_network_witness :
    ((fun _ => some sampleValidHtml) : FS) (html_path "1") = some sampleValidHtml
    ∧ is_html_valid sampleValidHtml = true
    ∧ ((Scraper.get_certificate_details (fun _ => some sampleValidHtml)
          (fun _ => .error ()) (fun _ => .ok true) "1").posted = false
        ∧ (Scraper.get_certificate_details (fun _ => some sampleValidHtml)
          (fun _ => .error ()) (fun _ => .ok true) "1").used = some sampleValidHtml) :=
  ⟨rfl, by decide,
    cache_hit_no_network (fun _ => some sampleValidHtml) (fun _ => .error ())
      (fun _ => .ok true) "1" sampleValidHtml rfl (by decide)⟩

/-- C6: on a cache miss, once a fetched response passes the validity check
its body is written to the per-id HTML file, and the write survives whatever
the parse step does afterwards (`evalF` arbitrary, including raising). -/
theorem persist_before_parse (fs : FS) (net : String → Except Unit String)
    (evalF : String → Except Unit Bool) (certificate_id resp : String)
    (hmiss : Scraper.html_exists_and_valid fs certificate_id = none)
    (hnet : net certificate_id = Except.ok resp)
    (hvalid : is_html_valid resp = true) :
    (Scraper.get_certificate_details fs net evalF certificate_id).fs
        (html_path certificate_id) = some resp := by
  simp only [Scraper.get_certificate_details, hmiss, hnet, hvalid, Bool.not_true,
    Bool.false_eq_true, if_false]
  split <;> (try split) <;> simp

theorem persist_before_parse_witness :
    Scraper.html_exists_and_valid (fun _ => none) "1" = none
    ∧ ((fun _ => Except.ok sampleValidHtml) : String → Except Unit String) "1"
        = Except.ok sampleValidHtml
    ∧ is_html_valid sampleValidHtml = true
    ∧ (Scraper.get_certificate_details (fun _ => none)
        (fun _ => Except.ok sampleValidHtml) (fun _ => .error ()) "1").fs
        (html_path "1") = some sampleValidHtml :=
  ⟨rfl, rfl, by decide,
    persist_before_parse (fun _ => none) (fun _ => Except.ok sampleValidHtml)
      (fun _ => .error ()) "1" sampleValidHtml rfl rfl (by decide)⟩

/-- C2: for every cached raw response that fails the validity predicate
(shorter than the minimum length, lacking `//OK`, or carrying the "does not
exist" message), `parse_certificate_details` returns no record, and no
exception even reaches its enclosing handler (the body completes with
`Except.ok none`). -/
theorem invalid_html_yields_none (fs : FS)
    (evalF : String → Except Unit (List Parse.PyVal))
    (pc pe : String → List (String × Parse.PyVal)) (certificate_id html : String)
    (hfile : fs (html_path certificate_id) = some html)
    (hinvalid : is_html_valid html = false) :
    Parse.parse_certificate_details_body fs evalF pc pe certificate_id = .ok none
    ∧ Parse.parse_certificate_details fs evalF pc pe certificate_id = none := by
  have hbody : Parse.parse_certificate_details_body fs evalF pc pe certificate_id
      = .ok none := by
    unfold Parse.parse_certificate_details_body
    rw [hfile]
    simp [hinvalid]
  exact ⟨hbody, by unfold Parse.parse_certificate_details; rw [hbody]⟩

theorem invalid_html_yields_none_witness :
    ((fun _ => some "nope") : FS) (html_path "1") = some "nope"
    ∧ is_html_valid "nope" = false
    ∧ Parse.parse_certificate_details_body (fun _ => some "nope")
        (fun _ => .ok []) (fun _ => []) (fun _ => []) "1" = .ok none
    ∧ Parse.parse_certificate_details (fun _ => some "nope")
        (fun _ => .ok []) (fun _ => []) (fun _ => []) "1" = none := by
  refine ⟨rfl, by decide, ?_⟩
  have h := invalid_html_yields_none (fun _ => some "nope") (fun _ => .ok [])
    (fun _ => []) (fun _ => []) "1" "nope" rfl (by decide)
  exact ⟨h.1, h.2⟩

theorem parseModRows_count (clean_text : String → String) :
    ∀ rows : List Parse.HRow,
      (∀ r ∈ rows, r.cells.length = 5) →
      (∀ r ∈ rows, (pyInt (pyStrip (r.cells.getD 0 ""))).isSome) →
      ∃ ms, Parse.parseModRows clean_text rows = .ok ms ∧ ms.length = rows.length := by
  intro rows
  induction rows with
  | nil => exact fun _ _ => ⟨[], rfl, rfl⟩
  | cons row rest ih =>
    intro hc hn
    obtain ⟨n, hint⟩ := Option.isSome_iff_exists.mp
      (hn row (List.mem_cons_self row rest))
    obtain ⟨ms, hms, hlen⟩ := ih
      (fun r hr => hc r (List.mem_cons_of_mem row hr))
      (fun r hr => hn r (List.mem_cons_of_mem row hr))
    rw [show Parse.parseModRows clean_text (row :: rest)
          = if row.cells.length = 5 then
              match pyInt (pyStrip (row.cells.getD 0 "")) with
              | none => .error ()
              | some n =>
                match Parse.parseModRows clean_text rest with
                | .error e => .error e
                | .ok ms =>
                  .ok ({ cut_no := n
                         description := clean_text (row.cells.getD 1 "")
                         deleted := clean_text (row.cells.getD 2 "")
                         replaced := clean_text (row.cells.getD 3 "")
                         inserted := clean_text (row.cells.getD 4 "") } :: ms)
            else Parse.parseModRows clean_text rest from rfl,
        if_pos (hc row (List.mem_cons_self row rest)), hint, hms]
    exact ⟨_, rfl, by simp [hlen]⟩

/-- C3: for every endorsement table whose data rows (after the header row)
each have exactly 5 cells with an integer first cell,
`parse_modifications_table` extracts exactly one modification record per data
row (and raises nothing). -/
theorem modifications_row_count (clean_text : String → String)
    (table : Parse.HTable) (header : Parse.HRow) (dataRows : List Parse.HRow)
    (hrows : table.rows = header :: dataRows)
    (hc : ∀ r ∈ dataRows, r.cells.length = 5)
    (hn : ∀ r ∈ dataRows, (pyInt (pyStrip (r.cells.getD 0 ""))).isSome) :
    ∃ ms, Parse.parse_modifications_table clean_text (some table) = .ok ms
      ∧ ms.length = dataRows.length := by
  show ∃ ms, Parse.parseModRows clean_text (table.rows.drop 1) = .ok ms
    ∧ ms.length = dataRows.length
  rw [hrows, List.drop_one, List.tail_cons]
  exact parseModRows_count clean_text dataRows hc hn

theorem dictSet_absent (d : Parse.StrDict) (k v : String)
    (h : d.any (fun p => p.1 = k) = false) :
    Parse.dictSet d k v = d ++ [(k, v)] := by
  unfold Parse.dictSet
  rw [if_neg]
  intro hh
  rw [h] at hh
  exact Bool.false_ne_true hh

theorem foldl_dictSet_zip (ks : List String) :
    ∀ (vs : List String) (d : Parse.StrDict), ks.Nodup →
      (∀ k ∈ ks, d.any (fun p => p.1 = k) = false) →
      (ks.zip vs).foldl (fun d p => Parse.dictSet d p.1 p.2) d = d ++ ks.zip vs := by
  induction ks with
  | nil => intro vs d _ _; simp
  | cons k kt ih =>
    intro vs d hnd hdisj
    cases vs with
    | nil => simp
    | cons v vt =>
      rw [List.zip_cons_cons, List.foldl_cons]
      have hset : Parse.dictSet d k v = d ++ [(k, v)] :=
        dictSet_absent d k v (hdisj k (List.mem_cons_self k kt))
      have hkt : ∀ k' ∈ kt, (d ++ [(k, v)]).any (fun p => p.1 = k') = false := by
        intro k' hk'
        rw [List.any_append]
        have h1 := hdisj k' (List.mem_cons_of_mem k hk')
        have h2 : k ≠ k' := fun he => (List.nodup_cons.mp hnd).1 (he ▸ hk')
        simp [h1, h2]
      rw [hset, ih vt (d ++ [(k, v)]) (List.nodup_cons.mp hnd).2 hkt,
        List.append_assoc]
      rfl

theorem dictOfZip_eq_zip (ks vs : List String) (h : ks.Nodup) :
    Parse.dictOfZip ks vs = ks.zip vs := by
  unfold Parse.dictOfZip
  rw [foldl_dictSet_zip ks vs [] h (fun _ _ => rfl)]
  rfl

theorem dictGet?_zip_self_map (g : String → String) :
    ∀ (X : List String) (f : String), f ∈ X →
      Parse.dictGet? (X.zip (X.map g)) f = some (g f) := by
  intro X
  induction X with
  | nil => intro f hf; cases hf
  | cons x xt ih =>
    intro f hf
    rw [List.map_cons, List.zip_cons_cons]
    unfold Parse.dictGet?
    by_cases hx : x = f
    · subst hx
      rw [List.find?_cons_of_pos _ (by simp)]
      rfl
    · rw [List.find?_cons_of_neg _ (by simp [hx])]
      rcases List.mem_cons.mp hf with he | hm
      · exact absurd he.symm hx
      · exact ih f hm

theorem dictGet?_map_set_ne (k v f : String) (h : k ≠ f) :
    ∀ d : Parse.StrDict,
      Parse.dictGet? (d.map (fun p => if p.1 = k then (k, v) else p)) f
        = Parse.dictGet? d f := by
  intro d
  induction d with
  | nil => rfl
  | cons q t ih =>
    rw [List.map_cons]
    unfold Parse.dictGet?
    by_cases hq : q.1 = k
    · rw [if_pos hq, List.find?_cons_of_neg _ (by simp [h]),
        List.find?_cons_of_neg _ (by simp [hq ▸ h])]
      exact ih
    · rw [if_neg hq]
      by_cases hqf : q.1 = f
      · rw [List.find?_cons_of_pos _ (by simp [hqf]),
          List.find?_cons_of_pos _ (by simp [hqf])]
      · rw [List.find?_cons_of_neg _ (by simp [hqf]),
          List.find?_cons_of_neg _ (by simp [hqf])]
        exact ih

theorem dictGet?_append_single_ne (k v f : String) (h : k ≠ f) :
    ∀ d : Parse.StrDict,
      Parse.dictGet? (d ++ [(k, v)]) f = Parse.dictGet? d f := by
  intro d
  induction d with
  | nil =>
    show Parse.dictGet? [(k, v)] f = none
    unfold Parse.dictGet?
    rw [List.find?_cons_of_neg _ (by simp [h])]
    rfl
  | cons q t ih =>
    rw [List.cons_append]
    unfold Parse.dictGet?
    by_cases hqf : q.1 = f
    · rw [List.find?_cons_of_pos _ (by simp [hqf]),
        List.find?_cons_of_pos _ (by simp [hqf])]
    · rw [List.find?_cons_of_neg _ (by simp [hqf]),
        List.find?_cons_of_neg _ (by simp [hqf])]
      exact ih

theorem dictGet?_set_ne (d : Parse.StrDict) (k v f : String) (h : k ≠ f) :
    Parse.dictGet? (Parse.dictSet d k v) f = Parse.dictGet? d f := by
  unfold Parse.dictSet
  split
  · exact dictGet?_map_set_ne k v f h d
  · exact dictGet?_append_single_ne k v f h d

theorem dictGet?_map_set_self (k v : String) :
    ∀ d : Parse.StrDict, d.any (fun p => p.1 = k) = true →
      Parse.dictGet? (d.map (fun p => if p.1 = k then (k, v) else p)) k = some v := by
  intro d
  induction d with
  | nil => intro h; exact absurd h (by simp)
  | cons q t ih =>
    intro h
    rw [List.map_cons]
    by_cases hq : q.1 = k
    · rw [if_pos hq]
      unfold Parse.dictGet?
      rw [List.find?_cons_of_pos _ (by simp)]
      rfl
    · rw [if_neg hq]
      unfold Parse.dictGet?
      rw [List.find?_cons_of_neg _ (by simp [hq])]
      apply ih
      rw [List.any_cons] at h
      simpa [hq] using h

theorem dictGet?_append_single_self (k v : String) :
    ∀ d : Parse.StrDict, d.any (fun p => p.1 = k) = false →
      Parse.dictGet? (d ++ [(k, v)]) k = some v := by
  intro d
  induction d with
  | nil =>
    intro _
    show Parse.dictGet? [(k, v)] k = some v
    unfold Parse.dictGet?
    rw [List.find?_cons_of_pos _ (by simp)]
    rfl
  | cons q t ih =>
    intro h
    rw [List.any_cons] at h
    have hq : ¬(q.1 = k) := by
      intro hh
      simp [hh] at h
    rw [List.cons_append]
    unfold Parse.dictGet?
    rw [List.find?_cons_of_neg _ (by simp [hq])]
    apply ih
    simpa [hq] using h

theorem dictGet?_set_self (d : Parse.StrDict) (k v : String) :
    Parse.dictGet? (Parse.dictSet d k v) k = some v := by
  unfold Parse.dictSet
  by_cases hany : d.any (fun p => p.1 = k) = true
  · rw [if_pos hany]
    exact dictGet?_map_set_self k v d hany
  · rw [if_neg hany]
    exact dictGet?_append_single_self k v d (Bool.eq_false_iff.mpr hany)

theorem foldl_setEmpty_preserve (f : String) :
    ∀ (new : List String) (d : Parse.StrDict), f ∉ new →
      Parse.dictGet? (new.foldl (fun r k => Parse.dictSet r k "") d) f
        = Parse.dictGet? d f := by
  intro new
  induction new with
  | nil => intro d _; rfl
  | cons k kt ih =>
    intro d hf
    rw [List.foldl_cons, ih (Parse.dictSet d k "") (fun hm => hf (List.mem_cons_of_mem k hm)),
      dictGet?_set_ne d k "" f (fun he => hf (he ▸ List.mem_cons_self k kt))]

theorem foldl_setEmpty_mem (f : String) :
    ∀ (new : List String) (d : Parse.StrDict), new.Nodup → f ∈ new →
      Parse.dictGet? (new.foldl (fun r k => Parse.dictSet r k "") d) f = some "" := by
  intro new
  induction new with
  | nil => intro d _ hf; cases hf
  | cons k kt ih =>
    intro d hnd hf
    rw [List.foldl_cons]
    by_cases hfk : f = k
    · subst hfk
      rw [foldl_setEmpty_preserve f kt (Parse.dictSet d f "") (List.nodup_cons.mp hnd).1,
        dictGet?_set_self]
    · exact ih (Parse.dictSet d k "") (List.nodup_cons.mp hnd).2
        (List.mem_cons.mp hf |>.resolve_left hfk)

theorem dictGet?_zip_isSome (f : String) :
    ∀ (ks vs : List String), f ∈ ks → ks.length = vs.length →
      (Parse.dictGet? (ks.zip vs) f).isSome = true := by
  intro ks
  induction ks with
  | nil => intro vs hf; cases hf
  | cons k kt ih =>
    intro vs hf hlen
    cases vs with
    | nil => cases hlen
    | cons v vt =>
      rw [List.zip_cons_cons]
      unfold Parse.dictGet?
      by_cases hk : k = f
      · rw [List.find?_cons_of_pos _ (by simp [hk])]
        rfl
      · rw [List.find?_cons_of_neg _ (by simp [hk])]
        exact ih vt (List.mem_cons.mp hf |>.resolve_left (fun he => hk he.symm))
          (by simpa using hlen)

/-- C5: the column-widening rewrite keeps every prior row in the widened
file, preserves each previously written value under its original column
name, and fills exactly the new columns of prior rows with empty strings. -/
theorem csv_widen_preserves_rows (header new_fields : List String)
    (rows : List (List String)) (newRecord : Parse.StrDict)
    (hnodup : (header ++ new_fields).Nodup) :
    ∀ vals ∈ rows, vals.length = header.length →
      Parse.rewriteRow header new_fields vals
          ∈ (Parse.widenMetadataFile header rows new_fields newRecord).2
      ∧ (∀ f ∈ header,
          Parse.dictGet? (Parse.dictOfZip (header ++ new_fields)
              (Parse.rewriteRow header new_fields vals)) f
            = Parse.dictGet? (Parse.dictOfZip header vals) f)
      ∧ (∀ f ∈ new_fields,
          Parse.dictGet? (Parse.dictOfZip (header ++ new_fields)
              (Parse.rewriteRow header new_fields vals)) f
            = some "") := by
  intro vals hmem hlen
  obtain ⟨hndh, hndn, hdisj⟩ := List.nodup_append.mp hnodup
  have hrow : Parse.rewriteRow header new_fields vals
      = (header ++ new_fields).map (fun f =>
          (Parse.dictGet? (new_fields.foldl (fun r f => Parse.dictSet r f "")
            (Parse.dictOfZip header vals)) f).getD "") := rfl
  have hzs : Parse.dictOfZip (header ++ new_fields)
      (Parse.rewriteRow header new_fields vals)
      = (header ++ new_fields).zip (Parse.rewriteRow header new_fields vals) :=
    dictOfZip_eq_zip _ _ hnodup
  refine ⟨List.mem_append_left _ (List.mem_map_of_mem _ hmem), ?_, ?_⟩
  · intro f hf
    rw [hzs, hrow, dictGet?_zip_self_map _ (header ++ new_fields) f
      (List.mem_append_left _ hf)]
    rw [foldl_setEmpty_preserve f new_fields _ (fun hx => hdisj hf hx),
      dictOfZip_eq_zip header vals hndh]
    obtain ⟨v, hv⟩ := Option.isSome_iff_exists.mp
      (dictGet?_zip_isSome f header vals hf hlen.symm)
    rw [hv]
    rfl
  · intro f hf
    rw [hzs, hrow, dictGet?_zip_self_map _ (header ++ new_fields) f
      (List.mem_append_right _ hf),
      foldl_setEmpty_mem f new_fields _ hndn hf]
    rfl

theorem csv_widen_preserves_rows_witness :
    (["id", "title"] ++ ["credit_editor"] : List String).Nodup
    ∧ (["100", "FILM"] : List String) ∈ [["100", "FILM"]]
    ∧ (["100", "FILM"] : List String).length = (["id", "title"] : List String).length
    ∧ (Parse.rewriteRow ["id", "title"] ["credit_editor"] ["100", "FILM"]
          ∈ (Parse.widenMetadataFile ["id", "title"] [["100", "FILM"]]
              ["credit_editor"] [("id", "7")]).2
      ∧ (∀ f ∈ (["id", "title"] : List String),
          Parse.dictGet? (Parse.dictOfZip (["id", "title"] ++ ["credit_editor"])
              (Parse.rewriteRow ["id", "title"] ["credit_editor"] ["100", "FILM"])) f
            = Parse.dictGet? (Parse.dictOfZip ["id", "title"] ["100", "FILM"]) f)
      ∧ (∀ f ∈ (["credit_editor"] : List String),
          Parse.dictGet? (Parse.dictOfZip (["id", "title"] ++ ["credit_editor"])
              (Parse.rewriteRow ["id", "title"] ["credit_editor"] ["100", "FILM"])) f
            = some "")) :=
  ⟨by decide, by decide, by decide,
    csv_widen_preserves_rows ["id", "title"] ["credit_editor"] [["100", "FILM"]]
      [("id", "7")] (by decide) ["100", "FILM"] (by decide) (by decide)⟩

theorem firedField_duration_iff (s : String) :
    (Parse.firedField s = some .duration) ↔ Parse.firesDuration s = true := by
  unfold Parse.firedField Parse.firesDuration
  split_ifs <;> simp_all

theorem firedField_category_iff (s : String) :
    (Parse.firedField s = some .category) ↔ Parse.firesCategory s = true := by
  unfold Parse.firedField Parse.firesCategory
  split_ifs <;> simp_all

theorem firedField_language_iff (s : String) :
    (Parse.firedField s = some .language) ↔ Parse.firesLanguage s = true := by
  unfold Parse.firedField Parse.firesLanguage
  split_ifs <;> simp_all

theorem firedField_format_iff (s : String) :
    (Parse.firedField s = some .format) ↔ Parse.firesFormat s = true := by
  unfold Parse.firedField Parse.firesFormat
  split_ifs <;> simp_all

theorem firedField_applicant_iff (s : String) :
    (Parse.firedField s = some .applicant) ↔ Parse.firesApplicant s = true := by
  unfold Parse.firedField Parse.firesApplicant
  split_ifs <;> simp_all

theorem firedField_certifier_iff (s : String) :
    (Parse.firedField s = some .certifier) ↔ Parse.firesCertifier s = true := by
  unfold Parse.firedField Parse.firesCertifier
  split_ifs <;> simp_all

theorem firedField_synopsis_iff (s : String) :
    (Parse.firedField s = some .synopsis) ↔ Parse.firesSynopsis s = true := by
  unfold Parse.firedField Parse.firesSynopsis
  split_ifs <;> simp_all

theorem firedField_title_iff (s : String) :
    (Parse.firedField s = some .title) ↔ Parse.firesTitle s = true := by
  unfold Parse.firedField Parse.firesTitle
  split_ifs <;> simp_all

/-- No rule of the `elif` chain ever assigns the certificate-id key. -/
theorem firedField_ne_certificate_id (s : String) :
    Parse.firedField s ≠ some .certificate_id := by
  unfold Parse.firedField
  split_ifs <;> simp

theorem lastFire_eq_lastStrMatch (f : Parse.MField) (q : String → Bool)
    (hequiv : ∀ s, (Parse.firedField s = some f) ↔ q s = true) :
    ∀ l : List (Nat × Parse.PyVal), Parse.lastFire f l = Parse.lastStrMatch q l := by
  intro l
  induction l with
  | nil => rfl
  | cons p t ih =>
    rw [Parse.lastFire, Parse.lastStrMatch, ih]
    cases Parse.lastStrMatch q t with
    | some n => rfl
    | none =>
      cases p.2 with
      | str s =>
        show (if Parse.firedField s = some f then some p.1 else none)
            = (if q s = true then some p.1 else none)
        by_cases hf : Parse.firedField s = some f
        · rw [if_pos hf, if_pos ((hequiv s).mp hf)]
        · rw [if_neg hf, if_neg (fun hq => hf ((hequiv s).mpr hq))]
      | num n => rfl
      | list l' => rfl

theorem lastFire_certificate_id_none :
    ∀ l : List (Nat × Parse.PyVal), Parse.lastFire .certificate_id l = none := by
  intro l
  induction l with
  | nil => rfl
  | cons p t ih =>
    rw [Parse.lastFire, ih]
    cases p.2 with
    | str s =>
      show (if Parse.firedField s = some Parse.MField.certificate_id
          then some p.1 else none) = none
      rw [if_neg (firedField_ne_certificate_id s)]
    | num n => rfl
    | list l' => rfl

theorem classifyStep_str (fi : Parse.FieldIdx) (i : Nat) (s : String) :
    Parse.classifyStep fi (i, .str s)
      = match Parse.firedField s with
        | some g => Parse.setField fi g (i : Int)
        | none => fi := rfl

/-- The enumerate-fold of `extract_main_data` records, per field, the index of
the last string item whose first firing rule is that field's. -/
theorem foldl_classifyStep_eq (f : Parse.MField) :
    ∀ (l : List (Nat × Parse.PyVal)) (fi : Parse.FieldIdx),
      (l.foldl Parse.classifyStep fi) f
        = match Parse.lastFire f l with
          | some n => some (n : Int)
          | none => fi f := by
  intro l
  induction l with
  | nil => intro fi; rfl
  | cons p t ih =>
    intro fi
    obtain ⟨i, v⟩ := p
    rw [List.foldl_cons, ih (Parse.classifyStep fi (i, v))]
    cases hlf : Parse.lastFire f t with
    | some n =>
      rw [show Parse.lastFire f ((i, v) :: t) = some n from by rw [Parse.lastFire, hlf]]
    | none =>
      cases v with
      | str s =>
        rw [show Parse.lastFire f ((i, Parse.PyVal.str s) :: t)
              = (if Parse.firedField s = some f then some i else none) from by
            rw [Parse.lastFire, hlf]]
        by_cases hf : Parse.firedField s = some f
        · rw [if_pos hf]
          show Parse.classifyStep fi (i, Parse.PyVal.str s) f = some (i : Int)
          rw [classifyStep_str, hf]
          show Parse.setField fi f (i : Int) f = some (i : Int)
          unfold Parse.setField
          rw [if_pos rfl]
        · rw [if_neg hf]
          show Parse.classifyStep fi (i, Parse.PyVal.str s) f = fi f
          rw [classifyStep_str]
          cases hff : Parse.firedField s with
          | none => rfl
          | some g =>
            show Parse.setField fi g (i : Int) f = fi f
            unfold Parse.setField
            rw [if_neg (fun he : f = g => hf (he ▸ hff))]
      | num n' =>
        rw [show Parse.lastFire f ((i, Parse.PyVal.num n') :: t) = none from by
            rw [Parse.lastFire, hlf]]
        rfl
      | list l' =>
        rw [show Parse.lastFire f ((i, Parse.PyVal.list l') :: t) = none from by
            rw [Parse.lastFire, hlf]]
        rfl

theorem findMainData_length :
    ∀ d m : List Parse.PyVal, Parse.findMainData d = some m → 5 < m.length := by
  intro d
  induction d with
  | nil => intro m h; cases h
  | cons x t ih =>
    intro m h
    cases x with
    | str s => exact ih m h
    | num n => exact ih m h
    | list l =>
      rw [Parse.findMainData] at h
      by_cases hl : 5 < l.length
      · rw [if_pos (by exact_mod_cast hl)] at h
        cases h
        exact hl
      · rw [if_neg (by exact_mod_cast hl)] at h
        exact ih m h

theorem findMainData_exists :
    ∀ (d l : List Parse.PyVal), Parse.PyVal.list l ∈ d → 5 < l.length →
      ∃ m, Parse.findMainData d = some m := by
  intro d
  induction d with
  | nil => intro l hl; cases hl
  | cons x t ih =>
    intro l hl hlen
    cases x with
    | str s =>
      rcases List.mem_cons.mp hl with he | hm
      · cases he
      · exact ih l hm hlen
    | num n =>
      rcases List.mem_cons.mp hl with he | hm
      · cases he
      · exact ih l hm hlen
    | list l' =>
      rw [Parse.findMainData]
      by_cases hl' : 5 < l'.length
      · rw [if_pos (by exact_mod_cast hl')]
        exact ⟨l', rfl⟩
      · rw [if_neg (by exact_mod_cast hl')]
        rcases List.mem_cons.mp hl with he | hm
        · exact absurd (by cases he; exact hlen) hl'
        · exact ih l hm hlen

theorem pyIndex_neg_one (m : List Parse.PyVal) (h : m ≠ []) :
    Parse.pyIndex m (-1) = m.getLast? := by
  unfold Parse.pyIndex
  have hlen : 1 ≤ m.length := List.length_pos.mpr h
  rw [if_neg (by omega), if_pos (by omega)]
  have ht : ((m.length : Int) + (-1)).toNat = m.length - 1 := by omega
  rw [ht, List.get?_eq_getElem?, List.getLast?_eq_getElem?]

/-- C8 counterexample: in `extract_main_data` the category rule is checked
before the language rule, so the string "HINDI VIDEO" (which contains the
language substring "hindi") is assigned to `category` and `language` stays
unset — against the claim's rule order, which lists language before the
category/format/applicant/certifier keyword group. -/
theorem heuristic_order_counterexample :
    Parse.ruleLanguage "HINDI VIDEO" = true
    ∧ (Parse.extract_main_data
        [Parse.PyVal.list [.num 0, .num 1, .num 2, .num 3, .num 4,
          .str "HINDI VIDEO"]]).language = none
    ∧ (Parse.extract_main_data
        [Parse.PyVal.list [.num 0, .num 1, .num 2, .num 3, .num 4,
          .str "HINDI VIDEO"]]).category = some (.str "HINDI VIDEO") :=
  ⟨by decide, rfl, rfl⟩

/-- C8 (amended): `extract_main_data` assigns fields by the code's rule
order — duration (`MM.SS` suffix), then category, then language, then
format, then applicant, then certifier, then synopsis (any field longer than
50 characters, not the longest), then title — where for a single string the
first matching rule shadows the later ones (the `fires*` predicates carry the
explicit negations), across strings the last matching index wins, and the
certificate-id key always holds `main_data[-1]`. -/
theorem extract_main_data_characterization (data_array main_data : List Parse.PyVal)
    (h : Parse.findMainData data_array = some main_data) :
    Parse.extract_main_data data_array =
      { certificate_id := Parse.pyIndex main_data (-1)
        title := Parse.fieldValue main_data
          ((Parse.lastStrMatch Parse.firesTitle main_data.enum).map (fun n => (n : Int)))
        category := Parse.fieldValue main_data
          ((Parse.lastStrMatch Parse.firesCategory main_data.enum).map (fun n => (n : Int)))
        language := Parse.fieldValue main_data
          ((Parse.lastStrMatch Parse.firesLanguage main_data.enum).map (fun n => (n : Int)))
        format := Parse.fieldValue main_data
          ((Parse.lastStrMatch Parse.firesFormat main_data.enum).map (fun n => (n : Int)))
        duration := Parse.fieldValue main_data
          ((Parse.lastStrMatch Parse.firesDuration main_data.enum).map (fun n => (n : Int)))
        applicant := Parse.fieldValue main_data
          ((Parse.lastStrMatch Parse.firesApplicant main_data.enum).map (fun n => (n : Int)))
        certifier := Parse.fieldValue main_data
          ((Parse.lastStrMatch Parse.firesCertifier main_data.enum).map (fun n => (n : Int)))
        synopsis := Parse.fieldValue main_data
          ((Parse.lastStrMatch Parse.firesSynopsis main_data.enum).map (fun n => (n : Int))) } := by
  have hlen := findMainData_length data_array main_data h
  have hne : main_data ≠ [] := by
    intro he
    rw [he] at hlen
    simp at hlen
  unfold Parse.extract_main_data
  rw [h]
  have hfv : ∀ (f : Parse.MField) (q : String → Bool),
      (∀ s, (Parse.firedField s = some f) ↔ q s = true) →
      Parse.initFields f = none →
      Parse.fieldValue main_data ((main_data.enum.foldl Parse.classifyStep Parse.initFields) f)
        = Parse.fieldValue main_data
            ((Parse.lastStrMatch q main_data.enum).map (fun n => (n : Int))) := by
    intro f q hq hinit
    rw [foldl_classifyStep_eq f main_data.enum Parse.initFields,
      lastFire_eq_lastStrMatch f q hq main_data.enum]
    cases Parse.lastStrMatch q main_data.enum with
    | some n => rfl
    | none =>
      show Parse.fieldValue main_data (Parse.initFields f) = Parse.fieldValue main_data none
      rw [hinit]
  have hcid :
      Parse.fieldValue main_data
        ((main_data.enum.foldl Parse.classifyStep Parse.initFields) .certificate_id)
        = Parse.pyIndex main_data (-1) := by
    rw [foldl_classifyStep_eq .certificate_id main_data.enum Parse.initFields,
      lastFire_certificate_id_none main_data.enum]
    show (if (-1 : Int) < (main_data.length : Int)
        then Parse.pyIndex main_data (-1) else none) = Parse.pyIndex main_data (-1)
    rw [if_pos (show (-1 : Int) < (main_data.length : Int) from by omega)]
  simp only [Parse.MainInfo.mk.injEq]
  exact ⟨hcid,
    hfv .title Parse.firesTitle firedField_title_iff rfl,
    hfv .category Parse.firesCategory firedField_category_iff rfl,
    hfv .language Parse.firesLanguage firedField_language_iff rfl,
    hfv .format Parse.firesFormat firedField_format_iff rfl,
    hfv .duration Parse.firesDuration firedField_duration_iff rfl,
    hfv .applicant Parse.firesApplicant firedField_applicant_iff rfl,
    hfv .certifier Parse.firesCertifier firedField_certifier_iff rfl,
    hfv .synopsis Parse.firesSynopsis firedField_synopsis_iff rfl⟩

theorem extract_main_data_characterization_witness :
    Parse.findMainData [Parse.PyVal.list [.str "SOME FILM", .str "THEATRICAL",
        .str "HINDI", .str "LONG", .str "000.33 MM.SS", .str "fileid"]]
      = some [.str "SOME FILM", .str "THEATRICAL", .str "HINDI", .str "LONG",
        .str "000.33 MM.SS", .str "fileid"]
    ∧ Parse.extract_main_data [Parse.PyVal.list [.str "SOME FILM",
        .str "THEATRICAL", .str "HINDI", .str "LONG", .str "000.33 MM.SS",
        .str "fileid"]]
      = { certificate_id := Parse.pyIndex [Parse.PyVal.str "SOME FILM",
            .str "THEATRICAL", .str "HINDI", .str "LONG", .str "000.33 MM.SS",
            .str "fileid"] (-1)
          title := Parse.fieldValue [Parse.PyVal.str "SOME FILM",
            .str "THEATRICAL", .str "HINDI", .str "LONG", .str "000.33 MM.SS",
            .str "fileid"]
            ((Parse.lastStrMatch Parse.firesTitle ([Parse.PyVal.str "SOME FILM",
              .str "THEATRICAL", .str "HINDI", .str "LONG", .str "000.33 MM.SS",
              .str "fileid"]).enum).map (fun n => (n : Int)))
          category := Parse.fieldValue [Parse.PyVal.str "SOME FILM",
            .str "THEATRICAL", .str "HINDI", .str "LONG", .str "000.33 MM.SS",
            .str "fileid"]
            ((Parse.lastStrMatch Parse.firesCategory ([Parse.PyVal.str "SOME FILM",
              .str "THEATRICAL", .str "HINDI", .str "LONG", .str "000.33 MM.SS",
              .str "fileid"]).enum).map (fun n => (n : Int)))
          language := Parse.fieldValue [Parse.PyVal.str "SOME FILM",
            .str "THEATRICAL", .str "HINDI", .str "LONG", .str "000.33 MM.SS",
            .str "fileid"]
            ((Parse.lastStrMatch Parse.firesLanguage ([Parse.PyVal.str "SOME FILM",
              .str "THEATRICAL", .str "HINDI", .str "LONG", .str "000.33 MM.SS",
              .str "fileid"]).enum).map (fun n => (n : Int)))
          format := Parse.fieldValue [Parse.PyVal.str "SOME FILM",
            .str "THEATRICAL", .str "HINDI", .str "LONG", .str "000.33 MM.SS",
            .str "fileid"]
            ((Parse.lastStrMatch Parse.firesFormat ([Parse.PyVal.str "SOME FILM",
              .str "THEATRICAL", .str "HINDI", .str "LONG", .str "000.33 MM.SS",
              .str "fileid"]).enum).map (fun n => (n : Int)))
          duration := Parse.fieldValue [Parse.PyVal.str "SOME FILM",
            .str "THEATRICAL", .str "HINDI", .str "LONG", .str "000.33 MM.SS",
            .str "fileid"]
            ((Parse.lastStrMatch Parse.firesDuration ([Parse.PyVal.str "SOME FILM",
              .str "THEATRICAL", .str "HINDI", .str "LONG", .str "000.33 MM.SS",
              .str "fileid"]).enum).map (fun n => (n : Int)))
          applicant := Parse.fieldValue [Parse.PyVal.str "SOME FILM",
            .str "THEATRICAL", .str "HINDI", .str "LONG", .str "000.33 MM.SS",
            .str "fileid"]
            ((Parse.lastStrMatch Parse.firesApplicant ([Parse.PyVal.str "SOME FILM",
              .str "THEATRICAL", .str "HINDI", .str "LONG", .str "000.33 MM.SS",
              .str "fileid"]).enum).map (fun n => (n : Int)))
          certifier := Parse.fieldValue [Parse.PyVal.str "SOME FILM",
            .str "THEATRICAL", .str "HINDI", .str "LONG", .str "000.33 MM.SS",
            .str "fileid"]
            ((Parse.lastStrMatch Parse.firesCertifier ([Parse.PyVal.str "SOME FILM",
              .str "THEATRICAL", .str "HINDI", .str "LONG", .str "000.33 MM.SS",
              .str "fileid"]).enum).map (fun n => (n : Int)))
          synopsis := Parse.fieldValue [Parse.PyVal.str "SOME FILM",
            .str "THEATRICAL", .str "HINDI", .str "LONG", .str "000.33 MM.SS",
            .str "fileid"]
            ((Parse.lastStrMatch Parse.firesSynopsis ([Parse.PyVal.str "SOME FILM",
              .str "THEATRICAL", .str "HINDI", .str "LONG", .str "000.33 MM.SS",
              .str "fileid"]).enum).map (fun n => (n : Int))) } :=
  ⟨rfl, extract_main_data_characterization _ _ rfl⟩

/-- C10: whenever the data array holds a nested list longer than 5 elements,
the extracted record's certificate-id field is the last element of the first
such list (the `-1` index is applied unconditionally), so the id field is
present regardless of which heuristic rules matched. -/
theorem certificate_id_always_last (data_array l : List Parse.PyVal)
    (hmem : Parse.PyVal.list l ∈ data_array) (hlen : 5 < l.length) :
    ∃ main_data, Parse.findMainData data_array = some main_data
      ∧ (Parse.extract_main_data data_array).certificate_id = main_data.getLast?
      ∧ (Parse.extract_main_data data_array).certificate_id ≠ none := by
  obtain ⟨m, hm⟩ := findMainData_exists data_array l hmem hlen
  have hmlen := findMainData_length data_array m hm
  have hne : m ≠ [] := by
    intro he
    rw [he] at hmlen
    simp at hmlen
  have hcid : (Parse.extract_main_data data_array).certificate_id = m.getLast? := by
    unfold Parse.extract_main_data
    rw [hm]
    show Parse.fieldValue m
        ((m.enum.foldl Parse.classifyStep Parse.initFields) .certificate_id)
      = m.getLast?
    rw [foldl_classifyStep_eq .certificate_id m.enum Parse.initFields,
      lastFire_certificate_id_none m.enum]
    show (if (-1 : Int) < (m.length : Int)
        then Parse.pyIndex m (-1) else none) = m.getLast?
    rw [if_pos (show (-1 : Int) < (m.length : Int) from by omega),
      pyIndex_neg_one m hne]
  refine ⟨m, hm, hcid, ?_⟩
  rw [hcid]
  intro hnone
  exact hne (List.getLast?_eq_none_iff.mp hnone)

theorem certificate_id_always_last_witness :
    Parse.PyVal.list [.num 0, .num 1, .num 2, .num 3, .num 4, .str "X"]
        ∈ [Parse.PyVal.list [.num 0, .num 1, .num 2, .num 3, .num 4, .str "X"]]
    ∧ 5 < ([Parse.PyVal.num 0, .num 1, .num 2, .num 3, .num 4, .str "X"]).length
    ∧ ∃ main_data, Parse.findMainData
        [Parse.PyVal.list [.num 0, .num 1, .num 2, .num 3, .num 4, .str "X"]]
        = some main_data
      ∧ (Parse.extract_main_data
          [Parse.PyVal.list [.num 0, .num 1, .num 2, .num 3, .num 4, .str "X"]]).certificate_id
          = main_data.getLast?
      ∧ (Parse.extract_main_data
          [Parse.PyVal.list [.num 0, .num 1, .num 2, .num 3, .num 4, .str "X"]]).certificate_id
          ≠ none :=
  ⟨List.mem_cons_self _ _, by decide,
    certificate_id_always_last _ _ (List.mem_cons_self _ _) (by decide)⟩

theorem processBatch_fields (W E : String → Bool) (mf : Nat) (st : Main.ScanState) :
    (Main.processBatch W E mf st).completed
        = Main.setUnion st.completed (Main.batchScan W E st.cache st.batch).1
    ∧ (Main.processBatch W E mf st).cache = (Main.batchScan W E st.cache st.batch).2
    ∧ (Main.processBatch W E mf st).snapshots
        = st.snapshots
          ++ [(Main.save_completed_ids
                (Main.setUnion st.completed (Main.batchScan W E st.cache st.batch).1),
              (Main.batchScan W E st.cache st.batch).2)]
    ∧ (Main.processBatch W E mf st).trace
        = st.trace ++ [⟨st.batch, st.batchSeqs,
            (Main.batchScan W E st.cache st.batch).1.length,
            Main.batchContiguous st.batch⟩]
    ∧ (Main.processBatch W E mf st).batch = st.batch
    ∧ (Main.processBatch W E mf st).batchSeqs = st.batchSeqs
    ∧ (Main.processBatch W E mf st).broke
        = (st.broke || ((Main.batchScan W E st.cache st.batch).1.isEmpty
            && Main.batchContiguous st.batch && decide (mf ≤ st.fails + 1)))
    ∧ (Main.processBatch W E mf st).fails
        = (if (Main.batchScan W E st.cache st.batch).1.isEmpty then
            (if Main.batchContiguous st.batch then st.fails + 1 else st.fails)
          else 0) :=
  ⟨rfl, rfl, rfl, rfl, rfl, rfl, rfl, rfl⟩

theorem scanGo_trace_broke (W E : String → Bool) (r y M mf : Nat) :
    ∀ (seqs : List Nat) (st : Main.ScanState), st.broke = false →
      st.batch = st.batchSeqs.map (Main.certId r y) →
      List.Chain' (· < ·) (st.batchSeqs ++ seqs) →
      st.batch.length ≤ 9 →
      ∃ delta, (Main.scanGo W E r y M mf seqs st).trace = st.trace ++ delta
        ∧ (Main.scanGo W E r y M mf seqs st).broke = Main.streakBreak mf st.fails delta
        ∧ ∀ e ∈ delta, e.batch = e.seqs.map (Main.certId r y)
            ∧ List.Chain' (· < ·) e.seqs
            ∧ e.batch.length ≤ 10
            ∧ (e.batch.length = 10 ∨ M ∈ e.seqs) := by
  intro seqs
  induction seqs with
  | nil =>
    intro st hbr _ _ _
    exact ⟨[], by simp [Main.scanGo], by rw [Main.scanGo, hbr]; rfl,
      fun e he => absurd he (List.not_mem_nil e)⟩
  | cons seq rest ih =>
    intro st hbr hmap hchain hlen
    rw [show Main.scanGo W E r y M mf (seq :: rest) st
          = (if Main.certId r y seq ∈ st.completed then
              Main.scanGo W E r y M mf rest st
            else
              let st1 := { st with
                batch := st.batch ++ [Main.certId r y seq]
                batchSeqs := st.batchSeqs ++ [seq] }
              if 10 ≤ st1.batch.length ∨ seq = M then
                let st2 := Main.processBatch W E mf st1
                if st2.broke then st2
                else Main.scanGo W E r y M mf rest
                  { st2 with batch := [], batchSeqs := [] }
              else Main.scanGo W E r y M mf rest st1) from by rw [Main.scanGo]]
    have hchain1 : List.Chain' (· < ·) ((st.batchSeqs ++ [seq]) ++ rest) := by
      simpa [List.append_assoc] using hchain
    by_cases hskip : Main.certId r y seq ∈ st.completed
    · rw [if_pos hskip]
      exact ih st hbr hmap (by
        rcases List.chain'_append.mp hchain with ⟨_, hc2, _⟩
        have : List.Chain' (· < ·) (st.batchSeqs ++ rest) := by
          rw [List.chain'_append]
          rcases List.chain'_append.mp hchain with ⟨ha, hb, hab⟩
          exact ⟨ha, (List.chain'_cons'.mp hb).2,
            fun x hx z hz => lt_trans (hab x hx seq rfl)
              ((List.chain'_cons'.mp hb).1 z hz)⟩
        exact this) hlen
    · rw [if_neg hskip]
      set st1 : Main.ScanState := { st with
        batch := st.batch ++ [Main.certId r y seq]
        batchSeqs := st.batchSeqs ++ [seq] } with hst1
      have hmap1 : st1.batch = st1.batchSeqs.map (Main.certId r y) := by
        show st.batch ++ [Main.certId r y seq]
          = (st.batchSeqs ++ [seq]).map (Main.certId r y)
        rw [List.map_append, hmap]
        rfl
      by_cases hflush : 10 ≤ st1.batch.length ∨ seq = M
      · rw [if_pos hflush]
        obtain ⟨hco, hca, hsn, htr, hba, hbs, hbk, hfl⟩ := processBatch_fields W E mf st1
        set st2 := Main.processBatch W E mf st1 with hst2
        have hinfo : ∀ P : Main.BatchInfo → Prop,
            P ⟨st1.batch, st1.batchSeqs, (Main.batchScan W E st1.cache st1.batch).1.length,
              Main.batchContiguous st1.batch⟩ →
            ∀ e ∈ [(⟨st1.batch, st1.batchSeqs,
                (Main.batchScan W E st1.cache st1.batch).1.length,
                Main.batchContiguous st1.batch⟩ : Main.BatchInfo)], P e := by
          intro P hP e he
          rw [List.mem_singleton.mp he]
          exact hP
        have hentry : (⟨st1.batch, st1.batchSeqs,
              (Main.batchScan W E st1.cache st1.batch).1.length,
              Main.batchContiguous st1.batch⟩ : Main.BatchInfo).batch
                = (⟨st1.batch, st1.batchSeqs,
                    (Main.batchScan W E st1.cache st1.batch).1.length,
                    Main.batchContiguous st1.batch⟩ : Main.BatchInfo).seqs.map
                    (Main.certId r y)
            ∧ List.Chain' (· < ·) (⟨st1.batch, st1.batchSeqs,
                (Main.batchScan W E st1.cache st1.batch).1.length,
                Main.batchContiguous st1.batch⟩ : Main.BatchInfo).seqs
            ∧ (⟨st1.batch, st1.batchSeqs,
                (Main.batchScan W E st1.cache st1.batch).1.length,
                Main.batchContiguous st1.batch⟩ : Main.BatchInfo).batch.length ≤ 10
            ∧ ((⟨st1.batch, st1.batchSeqs,
                (Main.batchScan W E st1.cache st1.batch).1.length,
                Main.batchContiguous st1.batch⟩ : Main.BatchInfo).batch.length = 10
              ∨ M ∈ (⟨st1.batch, st1.batchSeqs,
                (Main.batchScan W E st1.cache st1.batch).1.length,
                Main.batchContiguous st1.batch⟩ : Main.BatchInfo).seqs) := by
          refine ⟨hmap1, (List.chain'_append.mp hchain1).1, ?_, ?_⟩
          · show (st.batch ++ [Main.certId r y seq]).length ≤ 10
            rw [List.length_append]
            simpa using hlen
          · rcases hflush with h10 | hM
            · left
              show st1.batch.length = 10
              have hle : st1.batch.length ≤ 10 := by
                show (st.batch ++ [Main.certId r y seq]).length ≤ 10
                rw [List.length_append]
                simpa using hlen
              omega
            · right
              show M ∈ st.batchSeqs ++ [seq]
              rw [← hM]
              exact List.mem_append_right _ (List.mem_singleton_self seq)
        by_cases hbroke : st2.broke = true
        · rw [if_pos hbroke]
          refine ⟨[⟨st1.batch, st1.batchSeqs,
              (Main.batchScan W E st1.cache st1.batch).1.length,
              Main.batchContiguous st1.batch⟩], ?_, ?_, hinfo _ hentry⟩
          · rw [htr]
          · rw [hbroke] at hbk
            rw [hbr] at hbk
            simp only [Bool.false_or] at hbk
            have hcond := hbk.symm
            simp only [Bool.and_eq_true, decide_eq_true_eq] at hcond
            obtain ⟨⟨hE, hC⟩, hD⟩ := hcond
            rw [hbroke, Main.streakBreak]
            have hvc : (Main.batchScan W E st1.cache st1.batch).1.length = 0 :=
              List.length_eq_zero.mpr (List.isEmpty_iff.mp hE)
            rw [if_neg (show ¬((⟨st1.batch, st1.batchSeqs,
                (Main.batchScan W E st1.cache st1.batch).1.length,
                Main.batchContiguous st1.batch⟩ : Main.BatchInfo).validCount ≠ 0) from by
              simp [hvc]), if_pos hC, if_pos hD]
        · rw [if_neg hbroke]
          have hbk2 : st2.broke = false := Bool.eq_false_iff.mpr hbroke
          obtain ⟨delta₂, hdt, hdb, hde⟩ := ih { st2 with batch := [], batchSeqs := [] }
            hbk2 rfl (by
              show List.Chain' (· < ·) ([] ++ rest)
              exact (List.chain'_append.mp hchain1).2.1) (by simp)
          refine ⟨⟨st1.batch, st1.batchSeqs,
              (Main.batchScan W E st1.cache st1.batch).1.length,
              Main.batchContiguous st1.batch⟩ :: delta₂, ?_, ?_, ?_⟩
          · rw [hdt]
            show st2.trace ++ delta₂ = st.trace ++ _
            rw [htr]
            simp
          · rw [hdb]
            show Main.streakBreak mf st2.fails delta₂
              = Main.streakBreak mf st.fails (_ :: delta₂)
            rw [Main.streakBreak]
            by_cases hE : (Main.batchScan W E st1.cache st1.batch).1.isEmpty = true
            · have hvc : (Main.batchScan W E st1.cache st1.batch).1.length = 0 :=
                List.length_eq_zero.mpr (List.isEmpty_iff.mp hE)
              rw [if_neg (by simp [hvc])]
              by_cases hC : Main.batchContiguous st1.batch = true
              · rw [if_pos hC]
                have hD : ¬(mf ≤ st.fails + 1) := by
                  intro hmf
                  rw [hbr, hE, hC] at hbk
                  simp [hmf] at hbk
                  exact hbroke hbk
                rw [if_neg hD, hfl, if_pos hE, if_pos hC]
              · have hCf : Main.batchContiguous st1.batch = false :=
                  Bool.eq_false_iff.mpr hC
                rw [hCf]
                simp only [Bool.false_eq_true, if_false]
                rw [hfl, if_pos hE, if_neg (by rw [hCf]; exact Bool.false_ne_true)]
            · have hEf : (Main.batchScan W E st1.cache st1.batch).1.isEmpty = false :=
                Bool.eq_false_iff.mpr hE
              have hvc : (Main.batchScan W E st1.cache st1.batch).1.length ≠ 0 := by
                intro h0
                rw [List.isEmpty_iff.mpr (List.length_eq_zero.mp h0)] at hEf
                cases hEf
              rw [if_pos (by simpa using hvc), hfl, if_neg (by rw [hEf]; exact Bool.false_ne_true)]
          · intro e he
            rcases List.mem_cons.mp he with he1 | he2
            · rw [he1]
              exact hentry
            · exact hde e he2
      · rw [if_neg hflush]
        have hlen1 : st1.batch.length ≤ 9 := by
          rcases Nat.lt_or_ge st1.batch.length 10 with hl | hl
          · omega
          · exact absurd (Or.inl hl) hflush
        exact ih st1 hbr hmap1 hchain1 hlen1

theorem setInsert_mem (s : List String) (x y : String) :
    y ∈ Main.setInsert s x ↔ y ∈ s ∨ y = x := by
  unfold Main.setInsert
  by_cases h : x ∈ s
  · rw [if_pos h]
    exact ⟨Or.inl, fun h' => h'.elim id (fun he => he ▸ h)⟩
  · rw [if_neg h]
    simp

theorem setInsert_nodup (s : List String) (x : String) (h : s.Nodup) :
    (Main.setInsert s x).Nodup := by
  unfold Main.setInsert
  by_cases hx : x ∈ s
  · rwa [if_pos hx]
  · rw [if_neg hx]
    simp [List.nodup_append, h, hx]

theorem setUnion_mem (xs : List String) :
    ∀ (s : List String) (y : String),
      y ∈ Main.setUnion s xs ↔ y ∈ s ∨ y ∈ xs := by
  induction xs with
  | nil => intro s y; simp [Main.setUnion]
  | cons x xt ih =>
    intro s y
    show y ∈ Main.setUnion (Main.setInsert s x) xt ↔ _
    rw [ih (Main.setInsert s x) y, setInsert_mem]
    simp [List.mem_cons]
    tauto

theorem setUnion_nodup (xs : List String) :
    ∀ s : List String, s.Nodup → (Main.setUnion s xs).Nodup := by
  induction xs with
  | nil => intro s h; exact h
  | cons x xt ih =>
    intro s h
    exact ih (Main.setInsert s x) (setInsert_nodup s x h)

theorem batchScan_fold_spec (W E : String → Bool)
    (hWE : ∀ id, W id = true → E id = true) :
    ∀ (batch : List String) (vi ca : List String),
      (∀ x, x ∈ (batch.foldl (Main.batchScanStep W E) (vi, ca)).2
        ↔ x ∈ ca ∨ (x ∈ batch ∧ W x = true))
      ∧ (∀ x, x ∈ (batch.foldl (Main.batchScanStep W E) (vi, ca)).1
        ↔ x ∈ vi ∨ (x ∈ batch ∧ (x ∈ ca ∨ W x = true))) := by
  intro batch
  induction batch with
  | nil => intro vi ca; constructor <;> intro x <;> simp
  | cons c bt ih =>
    intro vi ca
    rw [List.foldl_cons]
    by_cases h1 : c ∈ ca
    · rw [show Main.batchScanStep W E (vi, ca) c = (Main.setInsert vi c, ca) from by
        unfold Main.batchScanStep
        rw [if_pos (show c ∈ (vi, ca).2 from h1)]]
      obtain ⟨ih2, ih1⟩ := ih (Main.setInsert vi c) ca
      constructor
      · intro x
        rw [ih2 x]
        simp only [List.mem_cons]
        constructor
        · rintro (hca | ⟨hbt, hw⟩)
          · exact Or.inl hca
          · exact Or.inr ⟨Or.inr hbt, hw⟩
        · rintro (hca | ⟨hc | hbt, hw⟩)
          · exact Or.inl hca
          · exact Or.inl (hc ▸ h1)
          · exact Or.inr ⟨hbt, hw⟩
      · intro x
        rw [ih1 x, setInsert_mem]
        simp only [List.mem_cons]
        constructor
        · rintro ((hvi | hxc) | ⟨hbt, hv⟩)
          · exact Or.inl hvi
          · exact Or.inr ⟨Or.inl hxc, Or.inl (hxc ▸ h1)⟩
          · exact Or.inr ⟨Or.inr hbt, hv⟩
        · rintro (hvi | ⟨hc | hbt, hv⟩)
          · exact Or.inl (Or.inl hvi)
          · exact Or.inl (Or.inr hc)
          · exact Or.inr ⟨hbt, hv⟩
    · by_cases h2 : W c = true
      · have h3 : E c = true := hWE c h2
        rw [show Main.batchScanStep W E (vi, ca) c
              = (Main.setInsert vi c, Main.setInsert ca c) from by
          unfold Main.batchScanStep
          rw [if_neg (show ¬(c ∈ (vi, ca).2) from h1), if_pos h2, if_pos h3]]
        obtain ⟨ih2, ih1⟩ := ih (Main.setInsert vi c) (Main.setInsert ca c)
        constructor
        · intro x
          rw [ih2 x, setInsert_mem]
          simp only [List.mem_cons]
          constructor
          · rintro ((hca | hxc) | ⟨hbt, hw⟩)
            · exact Or.inl hca
            · exact Or.inr ⟨Or.inl hxc, hxc ▸ h2⟩
            · exact Or.inr ⟨Or.inr hbt, hw⟩
          · rintro (hca | ⟨hc | hbt, hw⟩)
            · exact Or.inl (Or.inl hca)
            · exact Or.inl (Or.inr hc)
            · exact Or.inr ⟨hbt, hw⟩
        · intro x
          rw [ih1 x, setInsert_mem, setInsert_mem]
          simp only [List.mem_cons]
          constructor
          · rintro ((hvi | hxc) | ⟨hbt, (hca | hxc2) | hw⟩)
            · exact Or.inl hvi
            · exact Or.inr ⟨Or.inl hxc, Or.inr (hxc ▸ h2)⟩
            · exact Or.inr ⟨Or.inr hbt, Or.inl hca⟩
            · exact Or.inr ⟨Or.inr hbt, Or.inr (hxc2 ▸ h2)⟩
            · exact Or.inr ⟨Or.inr hbt, Or.inr hw⟩
          · rintro (hvi | ⟨hc | hbt, hv⟩)
            · exact Or.inl (Or.inl hvi)
            · exact Or.inl (Or.inr hc)
            · rcases hv with hca | hw
              · exact Or.inr ⟨hbt, Or.inl (Or.inl hca)⟩
              · exact Or.inr ⟨hbt, Or.inr hw⟩
      · rw [show Main.batchScanStep W E (vi, ca) c = (vi, ca) from by
          unfold Main.batchScanStep
          rw [if_neg (show ¬(c ∈ (vi, ca).2) from h1), if_neg h2]]
        obtain ⟨ih2, ih1⟩ := ih vi ca
        constructor
        · intro x
          rw [ih2 x]
          simp only [List.mem_cons]
          constructor
          · rintro (hca | ⟨hbt, hw⟩)
            · exact Or.inl hca
            · exact Or.inr ⟨Or.inr hbt, hw⟩
          · rintro (hca | ⟨hc | hbt, hw⟩)
            · exact Or.inl hca
            · exact absurd (hc ▸ hw) h2
            · exact Or.inr ⟨hbt, hw⟩
        · intro x
          rw [ih1 x]
          simp only [List.mem_cons]
          constructor
          · rintro (hvi | ⟨hbt, hv⟩)
            · exact Or.inl hvi
            · exact Or.inr ⟨Or.inr hbt, hv⟩
          · rintro (hvi | ⟨hc | hbt, hv⟩)
            · exact Or.inl hvi
            · rcases hv with hca | hw
              · exact absurd (hc ▸ hca) h1
              · exact absurd (hc ▸ hw) h2
            · exact Or.inr ⟨hbt, hv⟩

theorem batchScan_cache_mem (W E : String → Bool)
    (hWE : ∀ id, W id = true → E id = true)
    (cache batch : List String) (x : String) :
    x ∈ (Main.batchScan W E cache batch).2
      ↔ x ∈ cache ∨ (x ∈ batch ∧ W x = true) :=
  (batchScan_fold_spec W E hWE batch [] cache).1 x

theorem batchScan_valid_mem (W E : String → Bool)
    (hWE : ∀ id, W id = true → E id = true)
    (cache batch : List String) (x : String) :
    x ∈ (Main.batchScan W E cache batch).1
      ↔ x ∈ batch ∧ (x ∈ cache ∨ W x = true) := by
  rw [show (Main.batchScan W E cache batch).1
        = (batch.foldl (Main.batchScanStep W E) ([], cache)).1 from rfl,
    (batchScan_fold_spec W E hWE batch [] cache).2 x]
  simp

theorem insertSorted_perm (x : String) :
    ∀ l : List String, (Main.insertSorted x l).Perm (x :: l) := by
  intro l
  induction l with
  | nil => exact List.Perm.refl _
  | cons y t ih =>
    unfold Main.insertSorted
    by_cases h : Main.strLexLe x.data y.data = true
    · rw [if_pos h]
    · rw [if_neg h]
      exact List.Perm.trans (List.Perm.cons y ih) (List.Perm.swap x y t)

theorem pySorted_perm : ∀ l : List String, (Main.pySorted l).Perm l := by
  intro l
  induction l with
  | nil => exact List.Perm.refl _
  | cons a t ih =>
    show (Main.insertSorted a (Main.pySorted t)).Perm (a :: t)
    exact List.Perm.trans (insertSorted_perm a (Main.pySorted t))
      (List.Perm.cons a ih)

theorem save_completed_ids_mem (l : List String) (x : String) :
    x ∈ Main.save_completed_ids l ↔ x ∈ l :=
  (pySorted_perm l).mem_iff

theorem save_completed_ids_nodup (l : List String) (h : l.Nodup) :
    (Main.save_completed_ids l).Nodup :=
  ((pySorted_perm l).symm.nodup h :)

theorem chain_lt_range' : ∀ (n s : Nat), List.Chain' (· < ·) (List.range' s n) := by
  intro n
  induction n with
  | zero => intro s; exact List.chain'_nil
  | succ m ih =>
    intro s
    rw [List.range'_succ]
    cases m with
    | zero => exact List.chain'_singleton s
    | succ k =>
      rw [List.range'_succ]
      exact List.chain'_cons.mpr ⟨by omega,
        by rw [← List.range'_succ]; exact ih (s + 1)⟩

/-- C9 counterexample: a scan (region 1, year 2025, `max_seq = 70`,
`max_failures = 5`) that starts with sequence numbers 45 and 46 already
completed terminates early, although no 5 consecutive batches are all
contiguous and zero-valid: the batch spanning the two skipped ids is
non-contiguous (`int` span 11 > 10), so it neither counts toward nor resets
the failure streak, and the streak completes around it. -/
theorem scan_termination_counterexample :
    ((Main.process_region_year (fun _ => false) (fun _ => false)
        [Main.certId 1 2925 45, Main.certId 1 2925 46] [] 1 2025 70 5).broke = true)
    ∧ (Main.hasFailRun 5 (Main.process_region_year (fun _ => false) (fun _ => false)
        [Main.certId 1 2925 45, Main.certId 1 2925 46] [] 1 2025 70 5).trace
      = false) := by
  constructor
  · decide
  · decide

/-- C9 (amended): the scan for a region/year processes ids in ascending
sequence order in batches of at most 10 (every batch is exactly 10 unless it
is the cap-reaching one), and terminates early exactly when the streak
counter reaches `max_failures`, where the streak counts contiguous zero-valid
batches since the last batch with a valid certificate: a batch with a valid
certificate resets it to zero, and a zero-valid batch spanning a
non-contiguous id range (because completed ids were skipped) leaves it
unchanged without resetting it — so the streak's batches need not be
consecutive. -/
theorem scan_termination_characterization (W E : String → Bool)
    (completed₀ cache₀ : List String) (region year max_seq mf : Nat) :
    (Main.process_region_year W E completed₀ cache₀ region year max_seq mf).broke
      = Main.streakBreak mf 0
          (Main.process_region_year W E completed₀ cache₀ region year max_seq mf).trace
    ∧ ∀ e ∈ (Main.process_region_year W E completed₀ cache₀ region year max_seq mf).trace,
        e.batch = e.seqs.map (Main.certId region (year + 900))
        ∧ List.Chain' (· < ·) e.seqs
        ∧ e.batch.length ≤ 10
        ∧ (e.batch.length = 10 ∨ max_seq ∈ e.seqs) := by
  obtain ⟨delta, ht, hb, he⟩ := scanGo_trace_broke W E region (year + 900) max_seq mf
    (List.range' 1 max_seq) (Main.initState completed₀ cache₀) rfl rfl
    (by simpa using chain_lt_range' max_seq 1) (by simp [Main.initState])
  have htrace : (Main.process_region_year W E completed₀ cache₀ region year
      max_seq mf).trace = delta := by
    show (Main.scanGo W E region (year + 900) max_seq mf (List.range' 1 max_seq)
        (Main.initState completed₀ cache₀)).trace = delta
    rw [ht]
    rfl
  refine ⟨?_, fun e hee => he e (by rwa [htrace] at hee)⟩
  rw [htrace]
  exact hb

/-- Joint induction for the resumable-scan claim: characterizes (over a
sequence-range suffix, when the failure streak cannot fire and the cap id is
never already completed or valid) the final completed set, and bounds every
persisted snapshot between the starting state and the reachable valid ids. -/
theorem scanGo_resume_core (W E : String → Bool) (r y M mf : Nat)
    (hmf : M < mf) (hWE : ∀ id, W id = true → E id = true) :
    ∀ (n s : Nat) (st : Main.ScanState),
      1 ≤ s → s + n = M + 1 →
      st.broke = false →
      st.fails + n ≤ M →
      Main.certId r y M ∉ st.completed →
      ¬(Main.certId r y M ∈ st.cache ∨ W (Main.certId r y M) = true) →
      (n = 0 → st.batch = []) →
      st.completed.Nodup →
      (∀ id ∈ st.batch, ∃ i, 1 ≤ i ∧ i ≤ M ∧ id = Main.certId r y i) →
      (∀ x, x ∈ (Main.scanGo W E r y M mf (List.range' s n) st).completed
        ↔ x ∈ st.completed
          ∨ (x ∈ st.batch ∧ (x ∈ st.cache ∨ W x = true))
          ∨ (∃ i, i ∈ List.range' s n ∧ x = Main.certId r y i
              ∧ (x ∈ st.cache ∨ W x = true)))
      ∧ (∃ sdelta, (Main.scanGo W E r y M mf (List.range' s n) st).snapshots
            = st.snapshots ++ sdelta
          ∧ ∀ p ∈ sdelta,
              (∀ z ∈ st.completed, z ∈ p.1)
              ∧ (∀ z ∈ p.1, z ∈ st.completed
                  ∨ ((∃ i, 1 ≤ i ∧ i ≤ M ∧ z = Main.certId r y i)
                    ∧ (z ∈ st.cache ∨ W z = true)))
              ∧ (∀ z ∈ st.cache, z ∈ p.2)
              ∧ (∀ z ∈ p.2, z ∈ st.cache ∨ W z = true)
              ∧ p.1.Nodup) := by
  intro n
  induction n with
  | zero =>
    intro s st hs1 hsn hbr hf hm hv hb hnd hbatch
    constructor
    · intro x
      rw [show List.range' s 0 = [] from rfl, Main.scanGo, hb rfl]
      simp
    · exact ⟨[], by rw [show List.range' s 0 = [] from rfl, Main.scanGo]; simp,
        fun p hp => absurd hp (List.not_mem_nil p)⟩
  | succ n' ih =>
    intro s st hs1 hsn hbr hf hm hv hb hnd hbatch
    rw [List.range'_succ]
    rw [show Main.scanGo W E r y M mf (s :: List.range' (s + 1) n') st
          = (if Main.certId r y s ∈ st.completed then
              Main.scanGo W E r y M mf (List.range' (s + 1) n') st
            else
              let st1 := { st with
                batch := st.batch ++ [Main.certId r y s]
                batchSeqs := st.batchSeqs ++ [s] }
              if 10 ≤ st1.batch.length ∨ s = M then
                let st2 := Main.processBatch W E mf st1
                if st2.broke then st2
                else Main.scanGo W E r y M mf (List.range' (s + 1) n')
                  { st2 with batch := [], batchSeqs := [] }
              else Main.scanGo W E r y M mf (List.range' (s + 1) n') st1)
          from by rw [Main.scanGo]]
    by_cases hskip : Main.certId r y s ∈ st.completed
    · rw [if_pos hskip]
      have hb' : n' = 0 → st.batch = [] := by
        intro h0
        exfalso
        have hsM : s = M := by omega
        rw [hsM] at hskip
        exact hm hskip
      obtain ⟨part1, part2⟩ := ih (s + 1) st (by omega) (by omega) hbr (by omega)
        hm hv hb' hnd hbatch
      refine ⟨?_, part2⟩
      intro x
      rw [part1 x]
      constructor
      · rintro (hc | hbv | ⟨i, hi, hx, hV⟩)
        · exact Or.inl hc
        · exact Or.inr (Or.inl hbv)
        · exact Or.inr (Or.inr ⟨i, List.mem_cons_of_mem s hi, hx, hV⟩)
      · rintro (hc | hbv | ⟨i, hi, hx, hV⟩)
        · exact Or.inl hc
        · exact Or.inr (Or.inl hbv)
        · rcases List.mem_cons.mp hi with he | hi'
          · exact Or.inl (by rw [hx, he]; exact hskip)
          · exact Or.inr (Or.inr ⟨i, hi', hx, hV⟩)
    · rw [if_neg hskip]
      set st1 : Main.ScanState := { st with
        batch := st.batch ++ [Main.certId r y s]
        batchSeqs := st.batchSeqs ++ [s] } with hst1
      have hbatch1 : ∀ id ∈ st1.batch,
          ∃ i, 1 ≤ i ∧ i ≤ M ∧ id = Main.certId r y i := by
        intro id hid
        rcases List.mem_append.mp hid with h1 | h2
        · exact hbatch id h1
        · exact ⟨s, hs1, by omega, List.mem_singleton.mp h2⟩
      by_cases hflush : 10 ≤ st1.batch.length ∨ s = M
      · rw [if_pos hflush]
        obtain ⟨hco, hca, hsn', htr, hba, hbs, hbk, hfl⟩ := processBatch_fields W E mf st1
        set st2 := Main.processBatch W E mf st1 with hst2
        have hD : ¬(mf ≤ st1.fails + 1) := by
          show ¬(mf ≤ st.fails + 1)
          omega
        have hbk2 : st2.broke = false := by
          rw [hbk]
          rw [show st1.broke = st.broke from rfl, hbr, decide_eq_false hD]
          simp
        rw [if_neg (by rw [hbk2]; exact Bool.false_ne_true)]
        have hmem2 : ∀ z, z ∈ st2.completed
            ↔ z ∈ st.completed ∨ (z ∈ st1.batch ∧ (z ∈ st.cache ∨ W z = true)) := by
          intro z
          rw [hco, setUnion_mem, batchScan_valid_mem W E hWE]
        have hcache2 : ∀ z, z ∈ st2.cache
            ↔ z ∈ st.cache ∨ (z ∈ st1.batch ∧ W z = true) := by
          intro z
          rw [hca, batchScan_cache_mem W E hWE]
        have hV2 : ∀ z, (z ∈ st2.cache ∨ W z = true) ↔ (z ∈ st.cache ∨ W z = true) := by
          intro z
          rw [hcache2 z]
          tauto
        have hm2 : Main.certId r y M ∉ st2.completed := by
          rw [hmem2]
          rintro (h | ⟨_, hV⟩)
          · exact hm h
          · exact hv hV
        have hv2 : ¬(Main.certId r y M ∈ st2.cache
            ∨ W (Main.certId r y M) = true) := by
          rw [hV2 (Main.certId r y M)]
          exact hv
        have hnd2 : st2.completed.Nodup := by
          rw [hco]
          exact setUnion_nodup _ _ hnd
        have hf2 : st2.fails + n' ≤ M := by
          rw [hfl]
          have hst1f : st1.fails = st.fails := rfl
          rw [hst1f]
          split_ifs <;> omega
        obtain ⟨part1, part2⟩ := ih (s + 1) { st2 with batch := [], batchSeqs := [] }
          (by omega) (by omega) hbk2 hf2 hm2 hv2 (fun _ => rfl) hnd2
          (fun id hid => absurd hid (List.not_mem_nil id))
        constructor
        · intro x
          rw [part1 x]
          rw [show ({ st2 with batch := [], batchSeqs := [] } : Main.ScanState).completed
                = st2.completed from rfl, hmem2 x]
          simp only [hV2]
          constructor
          · rintro ((hc | ⟨hbm, hV⟩) | ⟨h0, _⟩ | ⟨i, hi, hx, hV⟩)
            · exact Or.inl hc
            · rcases List.mem_append.mp hbm with hb1 | hb2
              · exact Or.inr (Or.inl ⟨hb1, hV⟩)
              · exact Or.inr (Or.inr ⟨s, List.mem_cons_self s _,
                  List.mem_singleton.mp hb2, hV⟩)
            · exact absurd h0 (List.not_mem_nil x)
            · exact Or.inr (Or.inr ⟨i, List.mem_cons_of_mem s hi, hx, hV⟩)
          · rintro (hc | ⟨hbm, hV⟩ | ⟨i, hi, hx, hV⟩)
            · exact Or.inl (Or.inl hc)
            · exact Or.inl (Or.inr ⟨List.mem_append_left _ hbm, hV⟩)
            · rcases List.mem_cons.mp hi with he | hi'
              · refine Or.inl (Or.inr ⟨List.mem_append_right _ ?_, hV⟩)
                rw [hx, he]
                exact List.mem_singleton_self _
              · exact Or.inr (Or.inr ⟨i, hi', hx, hV⟩)
        · obtain ⟨sdelta', hsd', hpp'⟩ := part2
          refine ⟨(Main.save_completed_ids st2.completed, st2.cache) :: sdelta', ?_, ?_⟩
          · rw [hsd']
            rw [show ({ st2 with batch := [], batchSeqs := [] } : Main.ScanState).snapshots
                  = st2.snapshots from rfl, hsn']
            rw [show (Main.save_completed_ids
                  (Main.setUnion st1.completed (Main.batchScan W E st1.cache st1.batch).1),
                  (Main.batchScan W E st1.cache st1.batch).2)
                = (Main.save_completed_ids st2.completed, st2.cache) from by
              rw [hco, hca]]
            simp
          · intro p hp
            rcases List.mem_cons.mp hp with hphead | hptail
            · rw [hphead]
              refine ⟨?_, ?_, ?_, ?_, ?_⟩
              · intro z hz
                rw [show (Main.save_completed_ids st2.completed, st2.cache).1
                      = Main.save_completed_ids st2.completed from rfl,
                  save_completed_ids_mem, hmem2]
                exact Or.inl hz
              · intro z hz
                rw [show (Main.save_completed_ids st2.completed, st2.cache).1
                      = Main.save_completed_ids st2.completed from rfl,
                  save_completed_ids_mem, hmem2] at hz
                rcases hz with hc | ⟨hbm, hV⟩
                · exact Or.inl hc
                · exact Or.inr ⟨hbatch1 z hbm, hV⟩
              · intro z hz
                show z ∈ st2.cache
                rw [hcache2]
                exact Or.inl hz
              · intro z hz
                rw [show (Main.save_completed_ids st2.completed, st2.cache).2
                      = st2.cache from rfl, hcache2] at hz
                rcases hz with hc | ⟨_, hw⟩
                · exact Or.inl hc
                · exact Or.inr hw
              · exact save_completed_ids_nodup _ hnd2
            · obtain ⟨pa, pb, pc, pd, pe⟩ := hpp' p hptail
              refine ⟨?_, ?_, ?_, ?_, pe⟩
              · intro z hz
                exact pa z (by
                  show z ∈ st2.completed
                  rw [hmem2]
                  exact Or.inl hz)
              · intro z hz
                rcases pb z hz with hc | ⟨hex, hV⟩
                · rw [show ({ st2 with batch := [], batchSeqs := [] } :
                      Main.ScanState).completed = st2.completed from rfl,
                    hmem2] at hc
                  rcases hc with hc1 | ⟨hbm, hV1⟩
                  · exact Or.inl hc1
                  · exact Or.inr ⟨hbatch1 z hbm, hV1⟩
                · exact Or.inr ⟨hex, (hV2 z).mp hV⟩
              · intro z hz
                exact pc z (by
                  show z ∈ st2.cache
                  rw [hcache2]
                  exact Or.inl hz)
              · intro z hz
                rcases pd z hz with hc | hw
                · rw [show ({ st2 with batch := [], batchSeqs := [] } :
                      Main.ScanState).cache = st2.cache from rfl, hcache2] at hc
                  rcases hc with hc1 | ⟨_, hw1⟩
                  · exact Or.inl hc1
                  · exact Or.inr hw1
                · exact Or.inr hw
      · rw [if_neg hflush]
        have hsM : ¬(s = M) := fun h => hflush (Or.inr h)
        have hb1 : n' = 0 → st1.batch = [] := by
          intro h0
          exact absurd (by omega : s = M) hsM
        obtain ⟨part1, part2⟩ := ih (s + 1) st1 (by omega) (by omega) hbr
          (by have hst1f : st1.fails = st.fails := rfl; rw [hst1f]; omega)
          hm hv hb1 hnd hbatch1
        constructor
        · intro x
          rw [part1 x]
          constructor
          · rintro (hc | ⟨hbm, hV⟩ | ⟨i, hi, hx, hV⟩)
            · exact Or.inl hc
            · rcases List.mem_append.mp hbm with hb1' | hb2'
              · exact Or.inr (Or.inl ⟨hb1', hV⟩)
              · exact Or.inr (Or.inr ⟨s, List.mem_cons_self s _,
                  List.mem_singleton.mp hb2', hV⟩)
            · exact Or.inr (Or.inr ⟨i, List.mem_cons_of_mem s hi, hx, hV⟩)
          · rintro (hc | ⟨hbm, hV⟩ | ⟨i, hi, hx, hV⟩)
            · exact Or.inl hc
            · exact Or.inr (Or.inl ⟨List.mem_append_left _ hbm, hV⟩)
            · rcases List.mem_cons.mp hi with he | hi'
              · refine Or.inr (Or.inl ⟨List.mem_append_right _ ?_, hV⟩)
                rw [hx, he]
                exact List.mem_singleton_self _
              · exact Or.inr (Or.inr ⟨i, hi', hx, hV⟩)
        · exact part2

theorem modifications_row_count_witness :
    (Parse.HTable.mk [⟨["h1", "h2", "h3", "h4", "h5"]⟩,
        ⟨["1", "cut scene", "0.10", "", ""]⟩,
        ⟨["2", "mute word", "", "0.05", ""]⟩]).rows
      = ⟨["h1", "h2", "h3", "h4", "h5"]⟩ ::
        [⟨["1", "cut scene", "0.10", "", ""]⟩, ⟨["2", "mute word", "", "0.05", ""]⟩]
    ∧ (∃ ms, Parse.parse_modifications_table id (some (Parse.HTable.mk
        [⟨["h1", "h2", "h3", "h4", "h5"]⟩,
         ⟨["1", "cut scene", "0.10", "", ""]⟩,
         ⟨["2", "mute word", "", "0.05", ""]⟩])) = .ok ms
        ∧ ms.length = [Parse.HRow.mk ["1", "cut scene", "0.10", "", ""],
            Parse.HRow.mk ["2", "mute word", "", "0.05", ""]].length) := by
  refine ⟨rfl, ?_⟩
  exact modifications_row_count id _ _ _ rfl (by decide) (by decide)

set_option maxRecDepth 8000 in
/-- C4 counterexample: resuming the scan from a persisted snapshot does not
always reproduce the full run's final completed-id set. With sequence numbers
1-5 and 58 valid (region 1, year 2025, `max_seq = 70`, `max_failures = 5`),
the uninterrupted run finds id 58, but a resume from the first persisted
snapshot skips the already-completed ids 1-5, which shifts every later batch
boundary; the failure streak then reaches 5 before sequence 58 is scanned and
the resumed run terminates without it. -/
theorem scan_resume_counterexample :
    Main.certId 1 2925 58 ∈
      (Main.process_region_year
        (fun s => decide (s ∈ [Main.certId 1 2925 1, Main.certId 1 2925 2,
          Main.certId 1 2925 3, Main.certId 1 2925 4, Main.certId 1 2925 5,
          Main.certId 1 2925 58])) (fun _ => true) [] [] 1 2025 70 5).completed
    ∧ Main.certId 1 2925 58 ∉
      (Main.process_region_year
        (fun s => decide (s ∈ [Main.certId 1 2925 1, Main.certId 1 2925 2,
          Main.certId 1 2925 3, Main.certId 1 2925 4, Main.certId 1 2925 5,
          Main.certId 1 2925 58])) (fun _ => true)
        ((Main.process_region_year
          (fun s => decide (s ∈ [Main.certId 1 2925 1, Main.certId 1 2925 2,
            Main.certId 1 2925 3, Main.certId 1 2925 4, Main.certId 1 2925 5,
            Main.certId 1 2925 58])) (fun _ => true) [] [] 1 2025 70 5).snapshots.getD 0
              ([], [])).1
        ((Main.process_region_year
          (fun s => decide (s ∈ [Main.certId 1 2925 1, Main.certId 1 2925 2,
            Main.certId 1 2925 3, Main.certId 1 2925 4, Main.certId 1 2925 5,
            Main.certId 1 2925 58])) (fun _ => true) [] [] 1 2025 70 5).snapshots.getD 0
              ([], [])).2
        1 2025 70 5).completed := by
  constructor
  · decide
  · decide

set_option maxRecDepth 8000 in
/-- Second failure mode of the resume-equality claim, via the eval error
path: with the seq-1 response passing the validity check (so its body is
saved) but its payload eval failing (`E` false), the full run (region 1,
year 2025, `max_seq = 3`, `max_failures = 10`) completes nothing, yet the
resumed run finds the saved HTML via `html_exists_and_valid` and marks seq 1
completed — even though the failure streak can never fire here.  This is why
`scan_resume_idempotent` needs its no-eval-failure hypothesis. -/
theorem eval_failure_breaks_resume :
    (Main.process_region_year (fun s => decide (s = Main.certId 1 2925 1))
        (fun _ => false) [] [] 1 2025 3 10).completed = []
    ∧ Main.certId 1 2925 1 ∈
      (Main.process_region_year (fun s => decide (s = Main.certId 1 2925 1))
        (fun _ => false)
        ((Main.process_region_year (fun s => decide (s = Main.certId 1 2925 1))
          (fun _ => false) [] [] 1 2025 3 10).snapshots.getD 0 ([], [])).1
        ((Main.process_region_year (fun s => decide (s = Main.certId 1 2925 1))
          (fun _ => false) [] [] 1 2025 3 10).snapshots.getD 0 ([], [])).2
        1 2025 3 10).completed := by
  constructor
  · decide
  · decide

/-- C4 (amended): the persisted completed-id state never contains duplicates,
and resume equality holds under the conditions that rule out both failure
modes: when `max_seq < max_failures` (the failure streak can never fire and
batch-boundary shifts are harmless), the payload eval never fails on a
response that passed the validity check (`hWE` — otherwise an id can be
saved to the HTML cache without being marked completed, and only the resumed
run picks it up from the cache), and the cap-sequence id is neither already
completed nor valid (so the final partial batch is flushed in both runs),
every snapshot persisted by `save_completed_ids` during the full run is
duplicate-free, and re-running the scan from any such snapshot yields
exactly the full run's final completed-id set. -/
theorem scan_resume_idempotent (W E : String → Bool)
    (completed₀ cache₀ : List String) (region year max_seq mf : Nat)
    (hmf : max_seq < mf) (hWE : ∀ id, W id = true → E id = true)
    (hnd : completed₀.Nodup)
    (hlastc : Main.certId region (year + 900) max_seq ∉ completed₀)
    (hlastv : ¬(Main.certId region (year + 900) max_seq ∈ cache₀
        ∨ W (Main.certId region (year + 900) max_seq) = true)) :
    ∀ snap ∈ (Main.process_region_year W E completed₀ cache₀
        region year max_seq mf).snapshots,
      snap.1.Nodup
      ∧ ∀ x, (x ∈ (Main.process_region_year W E snap.1 snap.2
            region year max_seq mf).completed
          ↔ x ∈ (Main.process_region_year W E completed₀ cache₀
            region year max_seq mf).completed) := by
  intro snap hsnap
  obtain ⟨part1f, sdelta, hsd, hsdmem⟩ :=
    scanGo_resume_core W E region (year + 900) max_seq mf hmf hWE max_seq 1
      (Main.initState completed₀ cache₀) (le_refl 1) (by omega) rfl
      (by show 0 + max_seq ≤ max_seq; omega) hlastc hlastv (fun _ => rfl)
      hnd (fun id hid => absurd hid (List.not_mem_nil id))
  have hsnap2 : snap ∈ sdelta := by
    have h1 : snap ∈ (Main.scanGo W E region (year + 900) max_seq mf
        (List.range' 1 max_seq)
        (Main.initState completed₀ cache₀)).snapshots := hsnap
    rw [hsd] at h1
    exact h1
  obtain ⟨hsub, hover, hcsub, hcover, hpnd⟩ := hsdmem snap hsnap2
  have hm2 : Main.certId region (year + 900) max_seq ∉ snap.1 := by
    intro h
    rcases hover _ h with hc | ⟨_, hV⟩
    · exact hlastc hc
    · exact hlastv hV
  have hv2 : ¬(Main.certId region (year + 900) max_seq ∈ snap.2
      ∨ W (Main.certId region (year + 900) max_seq) = true) := by
    rintro (h | h)
    · exact hlastv (hcover _ h)
    · exact hlastv (Or.inr h)
  obtain ⟨part1r, _⟩ :=
    scanGo_resume_core W E region (year + 900) max_seq mf hmf hWE max_seq 1
      (Main.initState snap.1 snap.2) (le_refl 1) (by omega) rfl
      (by show 0 + max_seq ≤ max_seq; omega) hm2 hv2 (fun _ => rfl)
      hpnd (fun id hid => absurd hid (List.not_mem_nil id))
  refine ⟨hpnd, ?_⟩
  intro x
  constructor
  · intro hx
    rcases (part1r x).mp hx with hc | ⟨hbm, _⟩ | ⟨i, hi, hxi, hV⟩
    · rcases hover _ hc with hc0 | ⟨⟨i, hi1, hiM, hxi⟩, hV⟩
      · exact (part1f x).mpr (Or.inl hc0)
      · refine (part1f x).mpr (Or.inr (Or.inr ⟨i, ?_, hxi, hV⟩))
        rw [List.mem_range'_1]
        omega
    · exact absurd hbm (List.not_mem_nil x)
    · refine (part1f x).mpr (Or.inr (Or.inr ⟨i, hi, hxi, ?_⟩))
      rcases hV with h | h
      · exact hcover _ h
      · exact Or.inr h
  · intro hx
    rcases (part1f x).mp hx with hc | ⟨hbm, _⟩ | ⟨i, hi, hxi, hV⟩
    · exact (part1r x).mpr (Or.inl (hsub _ hc))
    · exact absurd hbm (List.not_mem_nil x)
    · refine (part1r x).mpr (Or.inr (Or.inr ⟨i, hi, hxi, ?_⟩))
      rcases hV with h | h
      · exact Or.inl (hcsub _ h)
      · exact Or.inr h

theorem scan_resume_idempotent_witness :
    (3 < 10
      ∧ ([] : List String).Nodup
      ∧ Main.certId 1 2925 3 ∉ ([] : List String)
      ∧ ¬(Main.certId 1 2925 3 ∈ ([] : List String)
          ∨ (fun s => decide (s = Main.certId 1 2925 1)) (Main.certId 1 2925 3)
            = true)
      ∧ (([Main.certId 1 2925 1], [Main.certId 1 2925 1])
          : List String × List String) ∈
          (Main.process_region_year
            (fun s => decide (s = Main.certId 1 2925 1)) (fun _ => true)
            [] [] 1 2025 3 10).snapshots)
    ∧ [Main.certId 1 2925 1].Nodup
    ∧ (Main.certId 1 2925 1 ∈
        (Main.process_region_year (fun s => decide (s = Main.certId 1 2925 1))
          (fun _ => true)
          [Main.certId 1 2925 1] [Main.certId 1 2925 1] 1 2025 3 10).completed
      ↔ Main.certId 1 2925 1 ∈
        (Main.process_region_year (fun s => decide (s = Main.certId 1 2925 1))
          (fun _ => true) [] [] 1 2025 3 10).completed) :=
  ⟨⟨by decide, by decide, by decide, by decide, by decide⟩,
   (scan_resume_idempotent (fun s => decide (s = Main.certId 1 2925 1))
     (fun _ => true) [] [] 1 2025 3 10 (by decide) (fun _ _ => rfl)
     (by decide) (by decide) (by decide)
     ([Main.certId 1 2925 1], [Main.certId 1 2925 1]) (by decide)).1,
   (scan_resume_idempotent (fun s => decide (s = Main.certId 1 2925 1))
     (fun _ => true) [] [] 1 2025 3 10 (by decide) (fun _ _ => rfl)
     (by decide) (by decide) (by decide)
     ([Main.certId 1 2925 1], [Main.certId 1 2925 1]) (by decide)).2
     (Main.certId 1 2925 1)⟩

end CBC
